import Mathlib

/-!
Verification development for the Novara Evidence Bundle repository
(`examples/bundle.py`, `verifier/verify.py`, `scripts/generate_demo_bundle.py`).

The Python code is shallowly embedded as follows.

* Python text strings are modelled as `Str := List Char`.
* JSON values are modelled by the inductive type `Json`.  Python's `json`
  standard library functions are modelled executably: `json_dumps` mirrors
  `json.dumps(..., ensure_ascii=False)` (with `dumpsIndent` covering
  `indent=2`), and `json_loads` mirrors `json.loads`.  The model restricts
  JSON numbers to integers: float literals (and `NaN`/`Infinity`, and
  surrogate escapes) are treated as unparseable, which is the only place
  the model is narrower than CPython's `json`.
* A ZIP archive is modelled as the ordered list of its (name, text content)
  entries; `zread` returns the last entry with a given name, matching
  `zipfile.ZipFile.read` when duplicate names are present.
* `hashlib.sha256` of the on-disk archive bytes is an input to the model
  (`Except Unit Str`: either the computed hex digest or a raised exception),
  since the digest of the external byte stream is not computed by the
  repository's own code.
* Python exceptions that escape a function are modelled with
  `Except Unit`; `verify_bundle` catches them exactly where the source's
  `try`/`except` blocks do.
-/

set_option maxRecDepth 10000

/-- A Python text string, modelled as its list of unicode characters. -/
abbrev Str := List Char

/-- JSON values as produced by `json.loads` (numbers restricted to integers). -/
inductive Json where
  | null
  | bool (b : Bool)
  | num (n : Int)
  | str (s : Str)
  | arr (elems : List Json)
  | obj (fields : List (Str × Json))

mutual

def Json.beq : Json → Json → Bool
  | .null, .null => true
  | .bool a, .bool b => a == b
  | .num a, .num b => a == b
  | .str a, .str b => a == b
  | .arr a, .arr b => Json.beqList a b
  | .obj a, .obj b => Json.beqObj a b
  | _, _ => false

def Json.beqList : List Json → List Json → Bool
  | [], [] => true
  | x :: xs, y :: ys => Json.beq x y && Json.beqList xs ys
  | _, _ => false

def Json.beqObj : List (Str × Json) → List (Str × Json) → Bool
  | [], [] => true
  | (k1, v1) :: xs, (k2, v2) :: ys => k1 == k2 && Json.beq v1 v2 && Json.beqObj xs ys
  | _, _ => false

end

mutual

theorem Json.beq_iff : ∀ a b : Json, Json.beq a b = true ↔ a = b
  | .null, .null => by simp [Json.beq]
  | .bool a, .bool b => by simp [Json.beq]
  | .num a, .num b => by simp [Json.beq]
  | .str a, .str b => by simp [Json.beq]
  | .arr a, .arr b => by
      simp only [Json.beq, Json.beqList_iff a b, Json.arr.injEq]
  | .obj a, .obj b => by
      simp only [Json.beq, Json.beqObj_iff a b, Json.obj.injEq]
  | .null, .bool _ | .null, .num _ | .null, .str _ | .null, .arr _ | .null, .obj _
  | .bool _, .null | .bool _, .num _ | .bool _, .str _ | .bool _, .arr _ | .bool _, .obj _
  | .num _, .null | .num _, .bool _ | .num _, .str _ | .num _, .arr _ | .num _, .obj _
  | .str _, .null | .str _, .bool _ | .str _, .num _ | .str _, .arr _ | .str _, .obj _
  | .arr _, .null | .arr _, .bool _ | .arr _, .num _ | .arr _, .str _ | .arr _, .obj _
  | .obj _, .null | .obj _, .bool _ | .obj _, .num _ | .obj _, .str _ | .obj _, .arr _ => by
      simp [Json.beq]

theorem Json.beqList_iff : ∀ a b : List Json, Json.beqList a b = true ↔ a = b
  | [], [] => by simp [Json.beqList]
  | x :: xs, y :: ys => by
      simp [Json.beqList, Json.beq_iff x y, Json.beqList_iff xs ys]
  | [], _ :: _ => by simp [Json.beqList]
  | _ :: _, [] => by simp [Json.beqList]

theorem Json.beqObj_iff : ∀ a b : List (Str × Json), Json.beqObj a b = true ↔ a = b
  | [], [] => by simp [Json.beqObj]
  | (k1, v1) :: xs, (k2, v2) :: ys => by
      simp [Json.beqObj, Json.beq_iff v1 v2, Json.beqObj_iff xs ys]
  | [], _ :: _ => by simp [Json.beqObj]
  | _ :: _, [] => by simp [Json.beqObj]

end

instance : DecidableEq Json := fun a b => decidable_of_iff _ (Json.beq_iff a b)

/-! ### Serialization: model of `json.dumps(..., ensure_ascii=False)` -/

/-- Decimal digit character (`d < 10`). -/
def digitChar (d : Nat) : Char := Char.ofNat (48 + d)

/-- Lowercase hex digit character (`d < 16`), as used by Python's `\u00xx` escapes. -/
def hexDigitChar (d : Nat) : Char :=
  if d < 10 then digitChar d else Char.ofNat (87 + d)

/-- Decimal digits of a natural number, most significant first (Python `str(n)`). -/
def natDigits (n : Nat) : Str :=
  if _h : n < 10 then [digitChar n]
  else natDigits (n / 10) ++ [digitChar (n % 10)]
  decreasing_by exact Nat.div_lt_self (by omega) (by omega)

/-- Decimal representation of an integer (Python `str(n)` for `int`). -/
def intDigits : Int → Str
  | .ofNat n => natDigits n
  | .negSucc n => '-' :: natDigits (n + 1)

/-- Escape a single character inside a JSON string literal, as Python's
`json.dumps` does with `ensure_ascii=False`. -/
def escapeChar (c : Char) : Str :=
  if c = '"' then ['\\', '"']
  else if c = '\\' then ['\\', '\\']
  else if c = '\n' then ['\\', 'n']
  else if c = '\t' then ['\\', 't']
  else if c = '\r' then ['\\', 'r']
  else if c = '\x08' then ['\\', 'b']
  else if c = '\x0c' then ['\\', 'f']
  else if c.toNat < 32 then
    ['\\', 'u', '0', '0', hexDigitChar (c.toNat / 16), hexDigitChar (c.toNat % 16)]
  else [c]

/-- Escape a whole string for inclusion in a JSON string literal. -/
def escapeStr : Str → Str
  | [] => []
  | c :: cs => escapeChar c ++ escapeStr cs

/-- Spaces used for indentation. -/
def padSpaces (n : Nat) : Str := List.replicate n ' '

/-- Whitespace emitted after an opening bracket (empty in compact mode,
newline plus indentation when `indent` is given, as in Python `json.dumps`). -/
def openPad (iOpt : Option Nat) (lvl : Nat) : Str :=
  match iOpt with
  | none => []
  | some w => '\n' :: padSpaces (w * lvl)

/-- Whitespace emitted after the comma between items (a single space in
compact mode, newline plus indentation in indented mode). -/
def itemPad (iOpt : Option Nat) (lvl : Nat) : Str :=
  match iOpt with
  | none => [' ']
  | some w => '\n' :: padSpaces (w * lvl)

/-- Whitespace emitted before a closing bracket. -/
def closePad (iOpt : Option Nat) (lvl : Nat) : Str :=
  match iOpt with
  | none => []
  | some w => '\n' :: padSpaces (w * lvl)

mutual

/-- Model of `json.dumps(value, ensure_ascii=False)`; `iOpt = some w` models
`indent=w`, `iOpt = none` the compact default separators `", "` and `": "`. -/
def dumpsVal (iOpt : Option Nat) (lvl : Nat) : Json → Str
  | .null => 'n' :: 'u' :: 'l' :: 'l' :: []
  | .bool true => 't' :: 'r' :: 'u' :: 'e' :: []
  | .bool false => 'f' :: 'a' :: 'l' :: 's' :: 'e' :: []
  | .num n => intDigits n
  | .str s => '"' :: escapeStr s ++ ['"']
  | .arr [] => ['[', ']']
  | .arr (x :: xs) =>
      '[' :: openPad iOpt (lvl + 1) ++ dumpsElems iOpt (lvl + 1) (x :: xs) ++
        closePad iOpt lvl ++ [']']
  | .obj [] => ['{', '}']
  | .obj (f :: fs) =>
      '{' :: openPad iOpt (lvl + 1) ++ dumpsFields iOpt (lvl + 1) (f :: fs) ++
        closePad iOpt lvl ++ ['}']

/-- Elements of a (non-empty) array, separated by comma plus `itemPad`. -/
def dumpsElems (iOpt : Option Nat) (lvl : Nat) : List Json → Str
  | [] => []
  | [x] => dumpsVal iOpt lvl x
  | x :: y :: xs =>
      dumpsVal iOpt lvl x ++ ',' :: itemPad iOpt lvl ++ dumpsElems iOpt lvl (y :: xs)

/-- Fields of a (non-empty) object, separated by comma plus `itemPad`;
each key-value pair uses the `": "` key separator. -/
def dumpsFields (iOpt : Option Nat) (lvl : Nat) : List (Str × Json) → Str
  | [] => []
  | [(k, v)] => '"' :: escapeStr k ++ '"' :: ':' :: ' ' :: dumpsVal iOpt lvl v
  | (k, v) :: f :: fs =>
      '"' :: escapeStr k ++ '"' :: ':' :: ' ' :: dumpsVal iOpt lvl v ++
        ',' :: itemPad iOpt lvl ++ dumpsFields iOpt lvl (f :: fs)

end

/-- Model of `json.dumps(value, ensure_ascii=False)` (compact). -/
def json_dumps (j : Json) : Str := dumpsVal none 0 j

/-- Model of `json.dumps(value, indent=2, ensure_ascii=False)`. -/
def dumpsIndent (j : Json) : Str := dumpsVal (some 2) 0 j

/-! ### Parsing: model of `json.loads` -/

/-- JSON whitespace characters skipped by the parser. -/
def jsonWsChar (c : Char) : Bool :=
  c = ' ' || c = '\t' || c = '\n' || c = '\r'

/-- Drop leading JSON whitespace. -/
def skipWs : Str → Str
  | [] => []
  | c :: cs => if jsonWsChar c then skipWs cs else c :: cs

/-- Numeric value of a hex digit character, if it is one. -/
def hexVal (c : Char) : Option Nat :=
  if 48 ≤ c.toNat ∧ c.toNat ≤ 57 then some (c.toNat - 48)
  else if 97 ≤ c.toNat ∧ c.toNat ≤ 102 then some (c.toNat - 87)
  else if 65 ≤ c.toNat ∧ c.toNat ≤ 70 then some (c.toNat - 55)
  else none

/-- Parse the body of a JSON string literal (after the opening quote),
returning the decoded string and the input remaining after the closing
quote.  Unescaped control characters are rejected (`strict=True`), and
`\uXXXX` escapes in the surrogate range are rejected (the model has no
surrogate code units). -/
def parseStringBody : Nat → Str → Option (Str × Str)
  | 0, _ => none
  | _ + 1, [] => none
  | fuel + 1, c :: rest =>
    if c = '"' then some ([], rest)
    else if c = '\\' then
      match rest with
      | [] => none
      | e :: r =>
        if e = '"' then (parseStringBody fuel r).map fun p => ('"' :: p.1, p.2)
        else if e = '\\' then (parseStringBody fuel r).map fun p => ('\\' :: p.1, p.2)
        else if e = '/' then (parseStringBody fuel r).map fun p => ('/' :: p.1, p.2)
        else if e = 'b' then (parseStringBody fuel r).map fun p => ('\x08' :: p.1, p.2)
        else if e = 'f' then (parseStringBody fuel r).map fun p => ('\x0c' :: p.1, p.2)
        else if e = 'n' then (parseStringBody fuel r).map fun p => ('\n' :: p.1, p.2)
        else if e = 'r' then (parseStringBody fuel r).map fun p => ('\r' :: p.1, p.2)
        else if e = 't' then (parseStringBody fuel r).map fun p => ('\t' :: p.1, p.2)
        else if e = 'u' then
          match r with
          | h1 :: h2 :: h3 :: h4 :: r2 =>
            match hexVal h1, hexVal h2, hexVal h3, hexVal h4 with
            | some a, some b, some e2, some d =>
              let v := ((a * 16 + b) * 16 + e2) * 16 + d
              if v < 0xd800 ∨ (0xe000 ≤ v ∧ v < 0x10000) then
                (parseStringBody fuel r2).map fun p => (Char.ofNat v :: p.1, p.2)
              else none
            | _, _, _, _ => none
          | _ => none
        else none
    else if c.toNat < 32 then none
    else (parseStringBody fuel rest).map fun p => (c :: p.1, p.2)

/-- Take the maximal run of decimal digit characters. -/
def takeDigits : Str → Str × Str
  | [] => ([], [])
  | c :: cs =>
    if c.isDigit then
      let p := takeDigits cs
      (c :: p.1, p.2)
    else ([], c :: cs)

/-- Value of a digit string (most significant first). -/
def digitsVal (ds : Str) : Nat :=
  ds.foldl (fun a c => 10 * a + (c.toNat - 48)) 0

/-- Parse an integer numeral at the head of the input (`neg` records a
leading minus sign already consumed).  Leading zeros are rejected, and a
following `.`, `e` or `E` is rejected: float literals are outside this
model of JSON. -/
def parseIntRest (neg : Bool) (s : Str) : Option (Json × Str) :=
  let p := takeDigits s
  match p.1 with
  | [] => none
  | d :: ds =>
    if d = '0' ∧ ds ≠ [] then none
    else
      match p.2 with
      | c :: _ =>
        if c = '.' ∨ c = 'e' ∨ c = 'E' then none
        else some (.num (if neg then -(digitsVal (d :: ds) : Int) else (digitsVal (d :: ds) : Int)), p.2)
      | [] => some (.num (if neg then -(digitsVal (d :: ds) : Int) else (digitsVal (d :: ds) : Int)), p.2)

mutual

/-- Parse a JSON value at the head of the input (leading whitespace allowed),
returning the value and the remaining input. -/
def parseValue : Nat → Str → Option (Json × Str)
  | 0, _ => none
  | fuel + 1, s =>
    match skipWs s with
    | [] => none
    | c :: r =>
      if c = 'n' then
        if r.take 3 = ['u', 'l', 'l'] then some (.null, r.drop 3) else none
      else if c = 't' then
        if r.take 3 = ['r', 'u', 'e'] then some (.bool true, r.drop 3) else none
      else if c = 'f' then
        if r.take 4 = ['a', 'l', 's', 'e'] then some (.bool false, r.drop 4) else none
      else if c = '"' then
        (parseStringBody fuel r).map fun p => (.str p.1, p.2)
      else if c = '[' then
        if (skipWs r).head? = some ']' then some (.arr [], (skipWs r).tail)
        else parseElems fuel r []
      else if c = '{' then
        if (skipWs r).head? = some '}' then some (.obj [], (skipWs r).tail)
        else parseFields fuel r []
      else if c = '-' then parseIntRest true r
      else if c.isDigit then parseIntRest false (c :: r)
      else none

/-- Parse the elements of a non-empty array after the opening bracket. -/
def parseElems : Nat → Str → List Json → Option (Json × Str)
  | 0, _, _ => none
  | fuel + 1, s, acc =>
    match parseValue fuel s with
    | some (v, r) =>
      match skipWs r with
      | c :: r2 =>
        if c = ',' then parseElems fuel r2 (acc ++ [v])
        else if c = ']' then some (.arr (acc ++ [v]), r2)
        else none
      | [] => none
    | none => none

/-- Parse the fields of a non-empty object after the opening brace. -/
def parseFields : Nat → Str → List (Str × Json) → Option (Json × Str)
  | 0, _, _ => none
  | fuel + 1, s, acc =>
    match skipWs s with
    | c :: r =>
      if c = '"' then
        match parseStringBody fuel r with
        | some (k, r2) =>
          match skipWs r2 with
          | c2 :: r3 =>
            if c2 = ':' then
              match parseValue fuel r3 with
              | some (v, r4) =>
                match skipWs r4 with
                | c3 :: r5 =>
                  if c3 = ',' then parseFields fuel r5 (acc ++ [(k, v)])
                  else if c3 = '}' then some (.obj (acc ++ [(k, v)]), r5)
                  else none
                | [] => none
              | none => none
            else none
          | [] => none
        | none => none
      else none
    | [] => none

end

/-- Model of `json.loads`: parse a complete JSON document, requiring only
whitespace to remain afterwards. -/
def json_loads (s : Str) : Option Json :=
  match parseValue (s.length + 1) s with
  | some (j, rest) => if skipWs rest = [] then some j else none
  | none => none

/-! ### ZIP archives

A ZIP archive is modelled as the ordered list of its entries, each a name
paired with its text content.  `zipfile` keeps every written entry in
`namelist()` but `read(name)` resolves `name` through `NameToInfo`, where a
later duplicate entry overwrites an earlier one, so `zread` returns the
last matching entry. -/

structure ZipArchive where
  entries : List (Str × Str)
  deriving DecidableEq

/-- Last value associated with `key`, if any (later entries win). -/
def lastAssoc {β : Type} (fs : List (Str × β)) (key : Str) : Option β :=
  match fs with
  | [] => none
  | (k, v) :: rest =>
    match lastAssoc rest key with
    | some r => some r
    | none => if k = key then some v else none

/-- Model of `ZipFile.namelist()`. -/
def ZipArchive.namelist (z : ZipArchive) : List Str :=
  z.entries.map (fun p => p.1)

/-- Model of `ZipFile.read(name).decode("utf-8")`; `none` when no entry has
this name (a raised `KeyError`). -/
def ZipArchive.zread (z : ZipArchive) (name : Str) : Option Str :=
  lastAssoc z.entries name

/-! ### Builder: model of `examples/bundle.py` -/

/-- A wall-clock reading, as consumed by `iso_now`. -/
structure DateTime where
  year : Nat
  month : Nat
  day : Nat
  hour : Nat
  minute : Nat
  second : Nat
  deriving DecidableEq

/-- Zero-pad a number to two digits. -/
def pad2 (n : Nat) : Str := if n < 10 then '0' :: natDigits n else natDigits n

/-- Zero-pad a number to four digits. -/
def pad4 (n : Nat) : Str :=
  List.replicate (4 - (natDigits n).length) '0' ++ natDigits n

/-- Model of `iso_now()`: the current UTC time in ISO 8601 format with
second precision and a `Z` suffix, e.g. `2025-11-19T12:34:56Z`. -/
def iso_now (t : DateTime) : Str :=
  pad4 t.year ++ '-' :: pad2 t.month ++ '-' :: pad2 t.day ++
    'T' :: pad2 t.hour ++ ':' :: pad2 t.minute ++ ':' :: pad2 t.second ++ ['Z']

/-- In-memory state of `EvidenceBundle` (the dataclass fields; `created_at`
is set from the clock at construction, events and attachments start empty). -/
structure EvidenceBundle where
  bundle_id : Str
  system_name : Str
  system_version : Str
  operator : Str
  version : Str
  incident_summary : Option Str
  tags : Option (List Str)
  disclaimer : Option Str
  created_at : Str
  events : List Json
  attachments : List (Str × Str)
  deriving DecidableEq

/-- Model of constructing `EvidenceBundle(...)`: the dataclass `__init__`
stores the fields and initializes `_created_at` from the clock (`nowDt`)
and the event/attachment collections to empty.  The dataclass performs no
validation of its arguments. -/
def EvidenceBundle.make (bundle_id system_name system_version operator : Str)
    (version : Str) (incident_summary : Option Str) (tags : Option (List Str))
    (disclaimer : Option Str) (nowDt : DateTime) : EvidenceBundle :=
  { bundle_id := bundle_id
    system_name := system_name
    system_version := system_version
    operator := operator
    version := version
    incident_summary := incident_summary
    tags := tags
    disclaimer := disclaimer
    created_at := iso_now nowDt
    events := []
    attachments := [] }

/-- Model of `add_event`: build the event dict (in insertion order:
`timestamp`, `actor`, `action`, then the optional fields that were
supplied) and append it to the log.  `timestamp` defaults to the current
time (`nowDt`) when omitted. -/
def EvidenceBundle.add_event (b : EvidenceBundle) (actor action : Str)
    (timestamp : Option Str) (input output metadata : Option Json)
    (nowDt : DateTime) : EvidenceBundle :=
  let ts := timestamp.getD (iso_now nowDt)
  let ev := Json.obj
    ([("timestamp".data, Json.str ts), ("actor".data, Json.str actor),
      ("action".data, Json.str action)] ++
     (match input with | some v => [("input".data, v)] | none => []) ++
     (match output with | some v => [("output".data, v)] | none => []) ++
     (match metadata with | some v => [("metadata".data, v)] | none => []))
  { b with events := b.events ++ [ev] }

/-- Insert or overwrite a key in a Python dict modelled as an ordered
association list: re-assigning an existing key keeps its position and
replaces the value, a new key is appended. -/
def dictSet (d : List (Str × Str)) (k v : Str) : List (Str × Str) :=
  if d.any (fun p => p.1 == k) then
    d.map (fun p => if p.1 == k then (k, v) else p)
  else d ++ [(k, v)]

/-- Model of `add_text_attachment`. -/
def EvidenceBundle.add_text_attachment (b : EvidenceBundle) (path content : Str) :
    EvidenceBundle :=
  { b with attachments := dictSet b.attachments path content }

/-- Model of `_build_meta`: the meta.json dict, with the optional fields
appended only when present. -/
def EvidenceBundle.build_meta (b : EvidenceBundle) : Json :=
  Json.obj
    ([("bundle_id".data, Json.str b.bundle_id),
      ("version".data, Json.str b.version),
      ("timestamp".data, Json.str b.created_at),
      ("system_info".data, Json.obj
        [("name".data, Json.str b.system_name),
         ("version".data, Json.str b.system_version),
         ("operator".data, Json.str b.operator)])] ++
     (match b.incident_summary with
      | some s => [("incident_summary".data, Json.str s)] | none => []) ++
     (match b.tags with
      | some ts => [("tags".data, Json.arr (ts.map Json.str))] | none => []) ++
     (match b.disclaimer with
      | some s => [("disclaimer".data, Json.str s)] | none => []))

/-- The NDJSON string for the AAL entries: each event's compact JSON
followed by a newline, concatenated in order. -/
def aalNdjson : List Json → Str
  | [] => []
  | e :: es => json_dumps e ++ '\n' :: aalNdjson es

/-- Model of `write_zip`: the archive holds `meta.json` (indent-2 JSON),
then `aal.ndjson`, then the attachments in dict order. -/
def EvidenceBundle.write_zip (b : EvidenceBundle) : ZipArchive :=
  ⟨("meta.json".data, dumpsIndent b.build_meta) ::
    ("aal.ndjson".data, aalNdjson b.events) :: b.attachments⟩

/-! ### Verifier: model of `verifier/verify.py`

Warning and error messages are modelled as tags carrying the data that the
source interpolates into its f-strings; one `Msg` value corresponds to one
message appended to a `warnings`/`errors` list.  A Python exception that
escapes a verification function (e.g. the `TypeError` raised by `f not in
entry` when `entry` is not a container) is modelled by `Except Unit`;
`verify_bundle` catches these exactly where the source catches
`Exception`. -/

inductive Msg where
  | metaMissing
  | metaInvalidJson
  | metaReadError
  | metaMissingFields (missing : List Str)
  | versionMismatch (got : Json)
  | timestampNotIso
  | sysInfoNotObject
  | sysInfoMissingFields (missing : List Str)
  | aalMissing
  | aalReadError
  | aalEmpty
  | aalInvalidJson (line : Nat)
  | aalMoreJsonErrors (count : Nat)
  | aalMissingFields (line : Nat) (missing : List Str)
  | aalVersionMismatch (line : Nat) (got : Json)
  | aalTimestampNotIso (line : Nat)
  | aalMoreWarnings (count : Nat)
  | noAnchors
  | noSignature
  | hashCalcError
  | hashMismatch (expected : Json) (actual : Str)
  | notAValidZip
  | unexpectedError
  deriving DecidableEq

/-- Result of a single check (`meta` / `aal` / `optional` / `hash`). -/
structure CheckResult where
  score : Int
  warnings : List Msg
  errors : List Msg
  deriving DecidableEq

/-- Model of `CheckResult.add_warning` (the source's default penalty is 1;
call sites that pass an explicit penalty do so here as well). -/
def CheckResult.add_warning (r : CheckResult) (msg : Msg) (penalty : Int) : CheckResult :=
  { r with warnings := r.warnings ++ [msg], score := r.score - penalty }

/-- Model of `CheckResult.add_error` (the source's default penalty is 4). -/
def CheckResult.add_error (r : CheckResult) (msg : Msg) (penalty : Int) : CheckResult :=
  { r with errors := r.errors ++ [msg], score := r.score - penalty }

/-- Aggregated result of all checks. -/
structure VerificationResult where
  meta : CheckResult
  aal : CheckResult
  optional : CheckResult
  hash_check : Option CheckResult
  deriving DecidableEq

/-- Model of `VerificationResult.total_score`: sum of the (raw) component
scores, including the hash component when present, floored at zero. -/
def VerificationResult.total_score (r : VerificationResult) : Int :=
  max 0 (r.meta.score + r.aal.score + r.optional.score +
    (match r.hash_check with | some h => h.score | none => 0))

/-- Model of `VerificationResult.all_warnings`. -/
def VerificationResult.all_warnings (r : VerificationResult) : List Msg :=
  r.meta.warnings ++ r.aal.warnings ++ r.optional.warnings ++
    (match r.hash_check with | some h => h.warnings | none => [])

/-- Model of `VerificationResult.all_errors`. -/
def VerificationResult.all_errors (r : VerificationResult) : List Msg :=
  r.meta.errors ++ r.aal.errors ++ r.optional.errors ++
    (match r.hash_check with | some h => h.errors | none => [])

/-- Model of `VerificationResult.is_valid`: total score at least 7 and no
errors recorded. -/
def VerificationResult.is_valid (r : VerificationResult) : Prop :=
  7 ≤ r.total_score ∧ r.all_errors = []

instance (r : VerificationResult) : Decidable r.is_valid := by
  unfold VerificationResult.is_valid
  infer_instance

/-- Required fields in meta.json. -/
def REQUIRED_META_FIELDS : List Str :=
  ["bundle_id".data, "version".data, "timestamp".data, "system_info".data]

/-- Fields checked inside `system_info`. -/
def REQUIRED_SYSTEM_INFO_FIELDS : List Str :=
  ["name".data, "version".data, "operator".data]

/-- Required fields for each AAL entry. -/
def REQUIRED_AAL_FIELDS : List Str :=
  ["timestamp".data, "actor".data, "action".data]

/-- Evidence Bundle format version. -/
def VALID_EVB_VERSION : Str := "0.1".data

/-- AAL version (if present). -/
def VALID_AAL_VERSION : Str := "1.0".data

/-- Test whether `needle` occurs contiguously in `hay` (Python `x in s`
for strings). -/
def isSubstrOf (needle hay : Str) : Bool :=
  match hay with
  | [] => needle == []
  | _ :: t => needle.isPrefixOf hay || isSubstrOf needle t

/-- Model of Python `key in value` on a parsed JSON value: key lookup on a
dict, element membership on a list, substring test on a string, and a
`TypeError` on the remaining (non-container) values. -/
def pyContains (v : Json) (key : Str) : Except Unit Bool :=
  match v with
  | .obj fs => .ok (fs.any (fun f => f.1 == key))
  | .arr es => .ok (es.any (fun e => e == Json.str key))
  | .str s => .ok (isSubstrOf key s)
  | _ => .error ()

/-- Model of Python `value[key]` on a parsed JSON value: dict lookup (with
later duplicate keys winning, as in a dict built by `json.loads`;
`KeyError` when absent) and a `TypeError` on every other value. -/
def pyGetItem (v : Json) (key : Str) : Except Unit Json :=
  match v with
  | .obj fs =>
    match lastAssoc fs key with
    | some r => .ok r
    | none => .error ()
  | _ => .error ()

/-- Model of `[f for f in fields if f not in v]`. -/
def pyMissingFields (fields : List Str) (v : Json) : Except Unit (List Str) :=
  match fields with
  | [] => .ok []
  | f :: fs => do
    let c ← pyContains v f
    let rest ← pyMissingFields fs v
    return if c then rest else f :: rest

/-- The `Version must be "0.1"` block of `verify_meta`. -/
def metaVersionCheck (meta : Json) (result : CheckResult) : Except Unit CheckResult := do
  let hasVer ← pyContains meta "version".data
  if hasVer then
    let v ← pyGetItem meta "version".data
    if v ≠ Json.str VALID_EVB_VERSION then
      return result.add_warning (.versionMismatch v) 1
    else
      return result
  else
    return result

/-- The `Basic timestamp format check` block of `verify_meta`. -/
def metaTimestampCheck (meta : Json) (result : CheckResult) : Except Unit CheckResult := do
  let hasTs ← pyContains meta "timestamp".data
  if hasTs then
    let ts ← pyGetItem meta "timestamp".data
    match ts with
    | .str s =>
      if ¬ s.contains 'T' then return result.add_warning .timestampNotIso 1
      else return result
    | _ => return result.add_warning .timestampNotIso 1
  else
    return result

/-- The `system_info check` block of `verify_meta`. -/
def metaSysInfoCheck (meta : Json) (result : CheckResult) : Except Unit CheckResult := do
  let hasSI ← pyContains meta "system_info".data
  if hasSI then
    let si ← pyGetItem meta "system_info".data
    match si with
    | .obj gs => do
      let sysMissing ← pyMissingFields REQUIRED_SYSTEM_INFO_FIELDS (.obj gs)
      if sysMissing ≠ [] then
        return result.add_warning (.sysInfoMissingFields sysMissing) 1
      else
        return result
    | _ => return result.add_warning .sysInfoNotObject 1
  else
    return result

/-- Model of `verify_meta`. -/
def verify_meta (z : ZipArchive) : Except Unit CheckResult := do
  let result : CheckResult := ⟨4, [], []⟩
  if ¬ z.namelist.contains "meta.json".data then
    return result.add_error .metaMissing 4
  else
    match z.zread "meta.json".data with
    | none => return result.add_error .metaReadError 4
    | some raw =>
    match json_loads raw with
    | none => return result.add_error .metaInvalidJson 4
    | some meta => do
      let missing ← pyMissingFields REQUIRED_META_FIELDS meta
      let result := if missing ≠ [] then result.add_error (.metaMissingFields missing) 4 else result
      let result ← metaVersionCheck meta result
      let result ← metaTimestampCheck meta result
      let result ← metaSysInfoCheck meta result
      return result

/-- Python `line.strip()` truthiness: the line has a non-whitespace character. -/
def pyNonBlank (line : Str) : Bool :=
  line.any (fun c => !c.isWhitespace)

/-- Python `raw.split("\n")` (always returns one more part than there are
newlines). -/
def splitNl : Str → List Str
  | [] => [[]]
  | c :: cs =>
    if c = '\n' then [] :: splitNl cs
    else
      match splitNl cs with
      | l :: ls => (c :: l) :: ls
      | [] => [[c]]

/-- Loop state of the `verify_aal` entry loop. -/
structure AalScan where
  result : CheckResult
  error_count : Nat
  warning_count : Nat
  deriving DecidableEq

/-- The `aal_version check` block of the `verify_aal` loop body. -/
def aalVersionCheck (entry : Json) (i : Nat) (wc : Nat) (result : CheckResult) :
    Except Unit (Nat × CheckResult) := do
  let hasAv ← pyContains entry "aal_version".data
  if hasAv then
    let av ← pyGetItem entry "aal_version".data
    if av ≠ Json.str VALID_AAL_VERSION then
      let wc2 := wc + 1
      return (wc2, if wc2 ≤ 5 then result.add_warning (.aalVersionMismatch i av) 0 else result)
    else
      return (wc, result)
  else
    return (wc, result)

/-- The `Basic timestamp sanity` block of the `verify_aal` loop body. -/
def aalTimestampCheck (entry : Json) (i : Nat) (wc : Nat) (result : CheckResult) :
    Except Unit (Nat × CheckResult) := do
  let hasTs ← pyContains entry "timestamp".data
  if hasTs then
    let ts ← pyGetItem entry "timestamp".data
    match ts with
    | .str s =>
      if ¬ s.contains 'T' then
        let wc2 := wc + 1
        return (wc2, if wc2 ≤ 5 then result.add_warning (.aalTimestampNotIso i) 0 else result)
      else
        return (wc, result)
    | _ =>
      let wc2 := wc + 1
      return (wc2, if wc2 ≤ 5 then result.add_warning (.aalTimestampNotIso i) 0 else result)
  else
    return (wc, result)

/-- One iteration of the `verify_aal` loop body for line number `i`. -/
def aalScanLine (st : AalScan) (i : Nat) (line : Str) : Except Unit AalScan := do
  match json_loads line with
  | none =>
    let ec := st.error_count + 1
    let result := if ec ≤ 3 then st.result.add_error (.aalInvalidJson i) 1 else st.result
    return { st with error_count := ec, result := result }
  | some entry => do
    let missing ← pyMissingFields REQUIRED_AAL_FIELDS entry
    let (wc, result) :=
      if missing ≠ [] then
        let wc2 := st.warning_count + 1
        (wc2, if wc2 ≤ 5 then st.result.add_warning (.aalMissingFields i missing) 0 else st.result)
      else (st.warning_count, st.result)
    let (wc, result) ← aalVersionCheck entry i wc result
    let (wc, result) ← aalTimestampCheck entry i wc result
    return ⟨result, st.error_count, wc⟩

/-- The `verify_aal` loop over the (1-indexed) non-blank lines. -/
def aalScanLines : AalScan → Nat → List Str → Except Unit AalScan
  | st, _, [] => .ok st
  | st, i, l :: ls => do
    let st2 ← aalScanLine st i l
    aalScanLines st2 (i + 1) ls

/-- Model of `verify_aal`. -/
def verify_aal (z : ZipArchive) : Except Unit CheckResult := do
  let result : CheckResult := ⟨4, [], []⟩
  if ¬ z.namelist.contains "aal.ndjson".data then
    return result.add_error .aalMissing 4
  else
    match z.zread "aal.ndjson".data with
    | none => return result.add_error .aalReadError 4
    | some raw => do
      let lines := (splitNl raw).filter pyNonBlank
      if lines = [] then
        return result.add_warning .aalEmpty 2
      else do
        let st ← aalScanLines ⟨result, 0, 0⟩ 1 lines
        let result := st.result
        let result :=
          if 3 < st.error_count then
            result.add_error (.aalMoreJsonErrors (st.error_count - 3)) 1
          else result
        let result :=
          if 5 < st.warning_count then
            result.add_warning (.aalMoreWarnings (st.warning_count - 5)) 0
          else result
        return result

/-- Model of `verify_optional` (anchors / signature presence; warnings only). -/
def verify_optional (z : ZipArchive) : CheckResult :=
  let result : CheckResult := ⟨2, [], []⟩
  let names := z.namelist
  let has_anchors := names.any (fun name =>
    "anchors/".data.isPrefixOf name && decide (8 < name.length))
  let result := if has_anchors then result else result.add_warning .noAnchors 1
  let has_sig := names.any (fun name =>
    isSubstrOf "signature".data (name.map Char.toLower) ||
      isSubstrOf "ctk".data (name.map Char.toLower))
  let result := if has_sig then result else result.add_warning .noSignature 1
  result

/-- Model of `verify_bundle_hash`.  `bundleDigest` is the result of hashing
the archive's raw bytes on disk (`Except.error` models an exception while
reading or hashing the file). -/
def verify_bundle_hash (z : ZipArchive) (bundleDigest : Except Unit Str) :
    Except Unit (Option CheckResult) := do
  match z.zread "meta.json".data with
  | none => return none
  | some raw =>
  match json_loads raw with
  | none => return none
  | some meta => do
    let hasHash ← pyContains meta "bundle_sha256".data
    if ¬ hasHash then
      return none
    else do
      let result : CheckResult := ⟨2, [], []⟩
      let expected ← pyGetItem meta "bundle_sha256".data
      match bundleDigest with
      | .error _ => return some (result.add_error .hashCalcError 4)
      | .ok actual =>
        if Json.str actual ≠ expected then
          return some (result.add_error (.hashMismatch expected actual) 4)
        else
          return some result

/-- Outcome of `zipfile.ZipFile(path, "r")`: a readable archive, a
`BadZipFile` error, or any other exception. -/
inductive OpenResult where
  | archive (z : ZipArchive)
  | badZipFile
  | otherError
  deriving DecidableEq

/-- The all-error outcome built in the `except` branches of `verify_bundle`. -/
def failResult (msg : Msg) : VerificationResult :=
  ⟨(CheckResult.mk 0 [] []).add_error msg 4, ⟨0, [], []⟩, ⟨0, [], []⟩, none⟩

/-- Model of `verify_bundle`: open the archive, run the meta / AAL /
optional / hash checks in order, and collapse to an all-error outcome if
the archive cannot be opened or an unexpected exception escapes a check. -/
def verify_bundle (opened : OpenResult) (bundleDigest : Except Unit Str) :
    VerificationResult :=
  match opened with
  | .badZipFile => failResult .notAValidZip
  | .otherError => failResult .unexpectedError
  | .archive z =>
    match (do
      let meta ← verify_meta z
      let aal ← verify_aal z
      let optional := verify_optional z
      let hash_check ← verify_bundle_hash z bundleDigest
      return VerificationResult.mk meta aal optional hash_check :
        Except Unit VerificationResult) with
    | .ok r => r
    | .error _ => failResult .unexpectedError

/-- The verdict printed by `print_result` and mapped to an exit code by
`main`: 0 = L1-PASS, 1 = L1-PARTIAL, 2 = L1-FAIL. -/
def verdictCode (r : VerificationResult) : Nat :=
  if r.is_valid then 0
  else if 4 ≤ r.total_score then 1
  else 2

/-- Model of `main`: exit 1 on missing argument, exit 1 when the path does
not exist (before opening the archive), otherwise verify and exit with the
verdict's code. -/
def mainExit (argv : List Str) (pathExistsB : Bool) (opened : OpenResult)
    (bundleDigest : Except Unit Str) : Nat :=
  if argv.length < 2 then 1
  else if ¬ pathExistsB then 1
  else verdictCode (verify_bundle opened bundleDigest)

/-- Constructor errors named by the specification. -/
inductive BundleError where
  | invalidArgument
  deriving DecidableEq

/-- Bundle construction as the specification describes it (spec §4.1
"Construct": fails with `InvalidArgument` if any required field is empty),
for comparison with the source's unvalidated `EvidenceBundle.make`. -/
def specConstruct (bundle_id system_name system_version operator : Str)
    (version : Str) (incident_summary : Option Str) (tags : Option (List Str))
    (disclaimer : Option Str) (nowDt : DateTime) :
    Except BundleError EvidenceBundle :=
  if bundle_id = [] ∨ system_name = [] ∨ system_version = [] ∨ operator = [] then
    .error .invalidArgument
  else
    .ok (EvidenceBundle.make bundle_id system_name system_version operator
      version incident_summary tags disclaimer nowDt)

/-! ### Helper lemmas and concrete inputs -/

theorem exceptBind_ok {α β : Type} (a : α) (f : α → Except Unit β) :
    (Except.ok a >>= f : Except Unit β) = f a := rfl

theorem exceptBind_error {α β : Type} (e : Unit) (f : α → Except Unit β) :
    (Except.error e >>= f : Except Unit β) = Except.error e := rfl

theorem exceptMap_ok {α β : Type} (a : α) (f : α → β) :
    (f <$> Except.ok a : Except Unit β) = Except.ok (f a) := rfl

theorem exceptMap_error {α β : Type} (e : Unit) (f : α → β) :
    (f <$> Except.error e : Except Unit β) = Except.error e := rfl

/-- The optional component never records an error and its score is one of
0, 1, 2. -/
theorem verify_optional_cases (z : ZipArchive) :
    (verify_optional z = ⟨2, [], []⟩) ∨
    (verify_optional z = ⟨1, [.noAnchors], []⟩) ∨
    (verify_optional z = ⟨1, [.noSignature], []⟩) ∨
    (verify_optional z = ⟨0, [.noAnchors, .noSignature], []⟩) := by
  unfold verify_optional
  dsimp only
  split_ifs <;> simp [CheckResult.add_warning]

/-- Concrete well-formed AAL line (one entry with all required fields),
followed by a newline. -/
def cexAalGood : Str :=
  '{' :: "\"timestamp\": \"2025-11-19T12:00:01Z\", \"actor\": \"user\", \"action\": \"send_message\"".data
    ++ '}' :: ['\n']

/-- Concrete meta.json content that parses but only has a `version` field,
with the wrong version value. -/
def cexMetaVersionOnly : Str := '{' :: "\"version\": \"0.2\"".data ++ ['}']

/-- Archive whose meta.json parses but is missing three required fields and
has a version mismatch; its AAL is a single valid entry. -/
def zC5 : ZipArchive :=
  ⟨[("meta.json".data, cexMetaVersionOnly), ("aal.ndjson".data, cexAalGood)]⟩

/-! ### Claim C2 -/

/-- C2: for every verification outcome with aggregate score `S`, the
verdict (as mapped to exit codes 0/1/2 by `print_result` and `main`) is
PASS (0) iff `S ≥ 7` and no error was recorded, PARTIAL (1) iff
`4 ≤ S < 7` or (`S ≥ 7` and some error was recorded), and FAIL (2) iff
`S < 4`. -/
theorem C2_verdict_iff (r : VerificationResult) :
    (verdictCode r = 0 ↔ (7 ≤ r.total_score ∧ r.all_errors = [])) ∧
    (verdictCode r = 1 ↔ ((4 ≤ r.total_score ∧ r.total_score < 7) ∨
      (7 ≤ r.total_score ∧ r.all_errors ≠ []))) ∧
    (verdictCode r = 2 ↔ r.total_score < 4) := by
  unfold verdictCode VerificationResult.is_valid
  rcases eq_or_ne r.all_errors [] with he | he <;>
    simp only [he, ne_eq, not_true_eq_false, not_false_eq_true, and_true, and_false,
      false_and, or_false, false_or, if_false, ite_false] <;>
    split_ifs <;> refine ⟨?_, ?_, ?_⟩ <;> simp <;> omega

/-! ### Claim C5 -/

/-- C5 (counterexample): in the archive `zC5` the meta component's score is
`-1` (the missing-fields error deducts 4 from the full score of 4, then
the version-mismatch warning deducts 1 more), so component scores are not
floored at zero; and the aggregate is `max 0 (-1 + 4 + 0) = 3`, not the
`0 + 4 + 0 = 4` that summing individually-floored component scores would
give. -/
theorem C5_counterexample :
    (verify_bundle (.archive zC5) (.error ())).meta.score = -1 ∧
    (verify_bundle (.archive zC5) (.error ())).total_score = 3 := by decide

/-- C5 (amended): component scores are not individually floored and may be
negative (see the counterexample); the aggregate score is the sum of the
raw component scores floored at zero once, so the aggregate is never
negative.  The optional component, whose deductions never exceed its
budget, is itself never negative. -/
theorem C5_aggregate_floor (opened : OpenResult) (digest : Except Unit Str) :
    0 ≤ (verify_bundle opened digest).total_score ∧
    (verify_bundle opened digest).total_score =
      max 0 ((verify_bundle opened digest).meta.score +
        (verify_bundle opened digest).aal.score +
        (verify_bundle opened digest).optional.score +
        (match (verify_bundle opened digest).hash_check with
         | some h => h.score | none => 0)) ∧
    0 ≤ (verify_bundle opened digest).optional.score := by
  refine ⟨le_max_left 0 _, rfl, ?_⟩
  cases opened with
  | badZipFile => simp [verify_bundle, failResult]
  | otherError => simp [verify_bundle, failResult]
  | archive z =>
    have hopt : (0 : Int) ≤ (verify_optional z).score := by
      rcases verify_optional_cases z with h | h | h | h <;> rw [h] <;> decide
    unfold verify_bundle
    cases hm : verify_meta z with
    | error e => simp [hm, exceptBind_error, failResult]
    | ok m =>
      cases ha : verify_aal z with
      | error e => simp [hm, ha, exceptBind_ok, exceptBind_error, failResult]
      | ok a =>
        cases hh : verify_bundle_hash z digest with
        | error e =>
          simp [hm, ha, hh, exceptBind_ok, exceptBind_error, exceptMap_error, failResult]
        | ok h =>
          simpa [hm, ha, hh, exceptBind_ok, exceptMap_ok] using hopt

/-! ### Claim C7 -/

/-- A fixed clock reading used by concrete counterexamples. -/
def dt0 : DateTime := ⟨2025, 11, 19, 12, 0, 0⟩

/-- C7 (counterexample): constructing an `EvidenceBundle` with an empty
`bundle_id` does not fail — the dataclass stores the empty field verbatim —
whereas the constructor described by the spec rejects the same input with
`InvalidArgument`. -/
theorem C7_counterexample :
    EvidenceBundle.make [] "S".data "V".data "O".data "0.1".data none none none dt0 =
      ⟨[], "S".data, "V".data, "O".data, "0.1".data, none, none, none, iso_now dt0, [], []⟩ ∧
    specConstruct [] "S".data "V".data "O".data "0.1".data none none none dt0 =
      .error .invalidArgument := by
  constructor
  · rfl
  · rfl

/-- C7 (amended): construction never fails and performs no validation: for
every input (required fields empty or not) the dataclass constructor
succeeds, storing the fields verbatim with `created_at` taken from the
clock and empty event/attachment collections.  The spec-described checked
constructor succeeds exactly when all required fields are non-empty, which
is where the source diverges from the claim. -/
theorem C7_construct_unvalidated (id sn sv op ver : Str) (inc : Option Str)
    (tg : Option (List Str)) (dis : Option Str) (dt : DateTime) :
    EvidenceBundle.make id sn sv op ver inc tg dis dt =
      ⟨id, sn, sv, op, ver, inc, tg, dis, iso_now dt, [], []⟩ ∧
    ((∃ b, specConstruct id sn sv op ver inc tg dis dt = .ok b) ↔
      (id ≠ [] ∧ sn ≠ [] ∧ sv ≠ [] ∧ op ≠ [])) := by
  constructor
  · rfl
  · unfold specConstruct
    by_cases h : id = [] ∨ sn = [] ∨ sv = [] ∨ op = [] <;> simp [h] <;> tauto

/-! ### Claim C8 -/

/-- C8 (counterexample): when the CLI path does not exist, `main` exits
with code 1 (the same code as L1-PARTIAL and as the usage error), not with
the FAIL code 2 the claim states. -/
theorem C8_counterexample :
    mainExit ["verify.py".data, "missing.zip".data] false (.archive ⟨[]⟩) (.error ()) = 1 ∧
    mainExit ["verify.py".data, "missing.zip".data] false (.archive ⟨[]⟩) (.error ()) ≠ 2 := by
  constructor
  · rfl
  · decide

/-- C8 (amended): when the path given to the CLI does not exist, the
process exits with code 1 without opening or scoring the archive: the exit
code is 1 for every possible archive-open outcome and digest, so nothing
about the archive is consulted. -/
theorem C8_notfound_exit (prog path : Str) (opened : OpenResult)
    (digest : Except Unit Str) :
    mainExit [prog, path] false opened digest = 1 := rfl

/-! ### Lemmas about the meta sub-checks -/

theorem exceptPure_eq_ok {α : Type} (a : α) : (pure a : Except Unit α) = Except.ok a := rfl

instance exceptDecEq {ε α : Type} [DecidableEq ε] [DecidableEq α] :
    DecidableEq (Except ε α) := fun x y =>
  match x, y with
  | .ok a, .ok b => if h : a = b then isTrue (by rw [h]) else isFalse (by simp [h])
  | .error e, .error f => if h : e = f then isTrue (by rw [h]) else isFalse (by simp [h])
  | .ok _, .error _ => isFalse (by simp)
  | .error _, .ok _ => isFalse (by simp)

theorem lastAssoc_isSome_of_any {β : Type} (fs : List (Str × β)) (key : Str)
    (h : fs.any (fun f => f.1 == key) = true) : ∃ v, lastAssoc fs key = some v := by
  induction fs with
  | nil => simp at h
  | cons f rest ih =>
    obtain ⟨k, v⟩ := f
    unfold lastAssoc
    rcases hr : lastAssoc rest key with _ | w
    · simp only [List.any_cons] at h
      rcases Bool.or_eq_true_iff.mp h with hk | hrest
    
      · refine ⟨v, ?_⟩
        have : k = key := by simpa using hk
        simp [this]
      · obtain ⟨w, hw⟩ := ih hrest
        rw [hw] at hr
        cases hr
    · exact ⟨w, rfl⟩

theorem pyMissingFields_obj (flds : List Str) (fs : List (Str × Json)) :
    pyMissingFields flds (.obj fs) =
      .ok (flds.filter (fun f => !(fs.any (fun p => p.1 == f)))) := by
  induction flds with
  | nil => rfl
  | cons f rest ih =>
    unfold pyMissingFields
    simp only [pyContains, exceptBind_ok, ih, List.filter_cons]
    cases hany : fs.any (fun p => p.1 == f) <;> simp [hany, exceptPure_eq_ok]

/-- `metaVersionCheck` on a JSON object never raises, never touches errors,
adds at most warnings, and never increases the score. -/
theorem metaVersionCheck_obj_bound (fs : List (Str × Json)) (result : CheckResult) :
    ∃ r, metaVersionCheck (.obj fs) result = .ok r ∧ r.errors = result.errors ∧
      r.score ≤ result.score ∧ ∃ w, r.warnings = result.warnings ++ w := by
  unfold metaVersionCheck
  simp only [pyContains, exceptBind_ok]
  cases hany : fs.any (fun f => f.1 == "version".data) with
  | false =>
    exact ⟨result, by simp [hany, exceptPure_eq_ok], rfl, le_refl _, [], by simp⟩
  | true =>
    obtain ⟨v, hv⟩ := lastAssoc_isSome_of_any fs _ hany
    by_cases hne : v ≠ Json.str VALID_EVB_VERSION
    · refine ⟨result.add_warning (.versionMismatch v) 1, ?_, rfl, by simp [CheckResult.add_warning], [.versionMismatch v], rfl⟩
      simp [hany, pyGetItem, hv, exceptBind_ok, hne, exceptPure_eq_ok]
    · refine ⟨result, ?_, rfl, le_refl _, [], by simp⟩
      simp [hany, pyGetItem, hv, exceptBind_ok, hne, exceptPure_eq_ok]

/-- `metaTimestampCheck` on a JSON object never raises, never touches
errors, adds at most warnings, and never increases the score. -/
theorem metaTimestampCheck_obj_bound (fs : List (Str × Json)) (result : CheckResult) :
    ∃ r, metaTimestampCheck (.obj fs) result = .ok r ∧ r.errors = result.errors ∧
      r.score ≤ result.score ∧ ∃ w, r.warnings = result.warnings ++ w := by
  unfold metaTimestampCheck
  simp only [pyContains, exceptBind_ok]
  cases hany : fs.any (fun f => f.1 == "timestamp".data) with
  | false =>
    exact ⟨result, by simp [hany, exceptPure_eq_ok], rfl, le_refl _, [], by simp⟩
  | true =>
    obtain ⟨v, hv⟩ := lastAssoc_isSome_of_any fs _ hany
    cases v with
    | str s =>
      by_cases hT : 'T' ∈ s
      · refine ⟨result, ?_, rfl, le_refl _, [], by simp⟩
        simp [hany, pyGetItem, hv, exceptBind_ok, hT, exceptPure_eq_ok]
      · refine ⟨result.add_warning .timestampNotIso 1, ?_, rfl, by simp [CheckResult.add_warning], [.timestampNotIso], rfl⟩
        simp [hany, pyGetItem, hv, exceptBind_ok, hT, exceptPure_eq_ok]
    | null =>
      refine ⟨result.add_warning .timestampNotIso 1, ?_, rfl, by simp [CheckResult.add_warning], [.timestampNotIso], rfl⟩
      simp [hany, pyGetItem, hv, exceptBind_ok, exceptPure_eq_ok]
    | bool b =>
      refine ⟨result.add_warning .timestampNotIso 1, ?_, rfl, by simp [CheckResult.add_warning], [.timestampNotIso], rfl⟩
      simp [hany, pyGetItem, hv, exceptBind_ok, exceptPure_eq_ok]
    | num n =>
      refine ⟨result.add_warning .timestampNotIso 1, ?_, rfl, by simp [CheckResult.add_warning], [.timestampNotIso], rfl⟩
      simp [hany, pyGetItem, hv, exceptBind_ok, exceptPure_eq_ok]
    | arr es =>
      refine ⟨result.add_warning .timestampNotIso 1, ?_, rfl, by simp [CheckResult.add_warning], [.timestampNotIso], rfl⟩
      simp [hany, pyGetItem, hv, exceptBind_ok, exceptPure_eq_ok]
    | obj gs =>
      refine ⟨result.add_warning .timestampNotIso 1, ?_, rfl, by simp [CheckResult.add_warning], [.timestampNotIso], rfl⟩
      simp [hany, pyGetItem, hv, exceptBind_ok, exceptPure_eq_ok]

/-- `metaSysInfoCheck` on a JSON object never raises, never touches errors,
adds at most warnings, and never increases the score. -/
theorem metaSysInfoCheck_obj_bound (fs : List (Str × Json)) (result : CheckResult) :
    ∃ r, metaSysInfoCheck (.obj fs) result = .ok r ∧ r.errors = result.errors ∧
      r.score ≤ result.score ∧ ∃ w, r.warnings = result.warnings ++ w := by
  unfold metaSysInfoCheck
  simp only [pyContains, exceptBind_ok]
  cases hany : fs.any (fun f => f.1 == "system_info".data) with
  | false =>
    exact ⟨result, by simp [hany, exceptPure_eq_ok], rfl, le_refl _, [], by simp⟩
  | true =>
    obtain ⟨v, hv⟩ := lastAssoc_isSome_of_any fs _ hany
    cases v with
    | obj gs =>
      by_cases hne :
        (REQUIRED_SYSTEM_INFO_FIELDS.filter (fun f => !(gs.any (fun p => p.1 == f)))) ≠ []
      · refine ⟨result.add_warning
          (.sysInfoMissingFields (REQUIRED_SYSTEM_INFO_FIELDS.filter
            (fun f => !(gs.any (fun p => p.1 == f))))) 1, ?_, rfl,
          by simp [CheckResult.add_warning],
          [.sysInfoMissingFields (REQUIRED_SYSTEM_INFO_FIELDS.filter
            (fun f => !(gs.any (fun p => p.1 == f))))], rfl⟩
        simp only [hany, hv, pyGetItem, exceptBind_ok, exceptPure_eq_ok, pyMissingFields_obj,
          if_true, ite_true]
        rw [if_pos hne]
      · refine ⟨result, ?_, rfl, le_refl _, [], by simp⟩
        simp only [hany, hv, pyGetItem, exceptBind_ok, exceptPure_eq_ok, pyMissingFields_obj,
          if_true, ite_true]
        rw [if_neg hne]
    | null =>
      refine ⟨result.add_warning .sysInfoNotObject 1, ?_, rfl,
        by simp [CheckResult.add_warning], [.sysInfoNotObject], rfl⟩
      simp only [hany, hv, pyGetItem, exceptBind_ok, exceptPure_eq_ok, if_true, ite_true]
    | bool b =>
      refine ⟨result.add_warning .sysInfoNotObject 1, ?_, rfl,
        by simp [CheckResult.add_warning], [.sysInfoNotObject], rfl⟩
      simp only [hany, hv, pyGetItem, exceptBind_ok, exceptPure_eq_ok, if_true, ite_true]
    | num n =>
      refine ⟨result.add_warning .sysInfoNotObject 1, ?_, rfl,
        by simp [CheckResult.add_warning], [.sysInfoNotObject], rfl⟩
      simp only [hany, hv, pyGetItem, exceptBind_ok, exceptPure_eq_ok, if_true, ite_true]
    | str s =>
      refine ⟨result.add_warning .sysInfoNotObject 1, ?_, rfl,
        by simp [CheckResult.add_warning], [.sysInfoNotObject], rfl⟩
      simp only [hany, hv, pyGetItem, exceptBind_ok, exceptPure_eq_ok, if_true, ite_true]
    | arr es =>
      refine ⟨result.add_warning .sysInfoNotObject 1, ?_, rfl,
        by simp [CheckResult.add_warning], [.sysInfoNotObject], rfl⟩
      simp only [hany, hv, pyGetItem, exceptBind_ok, exceptPure_eq_ok, if_true, ite_true]

/-! ### Claim C3 -/

/-- Concrete meta.json content that parses as an object with all required
fields except `bundle_id`. -/
def cexMetaNoBundleId : Str :=
  '{' :: "\"version\": \"0.1\", \"timestamp\": \"2025-11-19T12:00:00Z\", \"system_info\": ".data ++
    '{' :: "\"name\": \"N\", \"version\": \"v\", \"operator\": \"Op\"".data ++ '}' :: '}' :: []

/-- The parsed fields of `cexMetaNoBundleId`. -/
def cexMetaNoBundleIdFields : List (Str × Json) :=
  [("version".data, .str "0.1".data),
   ("timestamp".data, .str "2025-11-19T12:00:00Z".data),
   ("system_info".data, .obj
     [("name".data, .str "N".data),
      ("version".data, .str "v".data),
      ("operator".data, .str "Op".data)])]

/-- Archive whose meta.json is valid JSON but misses the required
`bundle_id` field. -/
def zC3 : ZipArchive :=
  ⟨[("meta.json".data, cexMetaNoBundleId), ("aal.ndjson".data, cexAalGood)]⟩

/-- C3 (counterexample): on `zC3` (meta.json present, valid JSON, missing
only `bundle_id`) the meta component records the missing field as a hard
error with a 4-point deduction — score 0, empty warning list, non-empty
error list — not as a combined warning with a 1-point deduction. -/
theorem C3_counterexample :
    verify_meta zC3 = .ok ⟨0, [], [.metaMissingFields ["bundle_id".data]]⟩ := by decide

/-- C3 (amended): when meta.json is present and parses as a JSON object
with one or more required top-level fields missing, `verify_meta` records
the missing fields as one combined hard error with a 4-point deduction
(so the error list of the meta component is exactly that one combined
message and the component score is at most 0); hard errors additionally
occur when meta.json is absent, unreadable, or not valid JSON. -/
theorem C3_missing_fields_error (z : ZipArchive) (raw : Str)
    (fs : List (Str × Json)) (missing : List Str)
    (hname : z.namelist.contains "meta.json".data = true)
    (hread : z.zread "meta.json".data = some raw)
    (hparse : json_loads raw = some (.obj fs))
    (hmiss : pyMissingFields REQUIRED_META_FIELDS (.obj fs) = .ok missing)
    (hne : missing ≠ []) :
    ∃ r, verify_meta z = .ok r ∧ r.errors = [.metaMissingFields missing] ∧
      r.score ≤ 0 := by
  unfold verify_meta
  simp only [hname, not_true_eq_false, if_false, ite_false, Bool.true_eq_false,
    hread, hparse, hmiss, exceptBind_ok]
  rw [if_pos hne]
  obtain ⟨r1, h1, he1, hs1, w1, hw1⟩ :=
    metaVersionCheck_obj_bound fs
      ((⟨4, [], []⟩ : CheckResult).add_error (.metaMissingFields missing) 4)
  obtain ⟨r2, h2, he2, hs2, w2, hw2⟩ := metaTimestampCheck_obj_bound fs r1
  obtain ⟨r3, h3, he3, hs3, w3, hw3⟩ := metaSysInfoCheck_obj_bound fs r2
  refine ⟨r3, ?_, ?_, ?_⟩
  · simp only [h1, h2, h3, exceptBind_ok, exceptPure_eq_ok]
  · rw [he3, he2, he1]
    rfl
  · have : ((⟨4, [], []⟩ : CheckResult).add_error (.metaMissingFields missing) 4).score = 0 := rfl
    omega

/-- C3 (witness): the amended theorem applied to the concrete archive
`zC3`. -/
theorem C3_missing_fields_error_witness :
    ∃ r, verify_meta zC3 = .ok r ∧
      r.errors = [.metaMissingFields ["bundle_id".data]] ∧ r.score ≤ 0 :=
  C3_missing_fields_error zC3 cexMetaNoBundleId cexMetaNoBundleIdFields
    ["bundle_id".data] (by decide) (by decide) (by decide) (by decide) (by decide)

/-! ### Lemmas about the AAL sub-checks -/

/-- Whatever `aalVersionCheck` returns without raising preserves the error
list and the score (all its penalties are 0) and can only grow the warning
counter. -/
theorem aalVersionCheck_ok_bound (entry : Json) (i wc : Nat) (result : CheckResult)
    (wc2 : Nat) (r2 : CheckResult)
    (h : aalVersionCheck entry i wc result = .ok (wc2, r2)) :
    r2.errors = result.errors ∧ r2.score = result.score ∧ wc ≤ wc2 ∧
      ∃ w, r2.warnings = result.warnings ++ w := by
  unfold aalVersionCheck at h
  rcases hc : pyContains entry "aal_version".data with e | b
  · rw [hc, exceptBind_error] at h
    cases h
  · rw [hc, exceptBind_ok] at h
    cases b with
    | false =>
      simp only [Bool.false_eq_true, if_false, ite_false, exceptPure_eq_ok,
        Except.ok.injEq, Prod.mk.injEq] at h
      obtain ⟨hwc, hr⟩ := h
      subst hwc hr
      exact ⟨rfl, rfl, le_refl _, [], by simp⟩
    | true =>
      simp only [if_true, ite_true] at h
      rcases hg : pyGetItem entry "aal_version".data with e | av
      · rw [hg, exceptBind_error] at h
        cases h
      · rw [hg, exceptBind_ok] at h
        by_cases hne : av ≠ Json.str VALID_AAL_VERSION
        · rw [if_pos hne] at h
          simp only [exceptPure_eq_ok, Except.ok.injEq, Prod.mk.injEq] at h
          obtain ⟨hwc, hr⟩ := h
          subst hwc hr
          by_cases h5 : wc + 1 ≤ 5
          · rw [if_pos h5]
            refine ⟨rfl, by simp [CheckResult.add_warning], by omega,
              [.aalVersionMismatch i av], rfl⟩
          · rw [if_neg h5]
            exact ⟨rfl, rfl, by omega, [], by simp⟩
        · rw [if_neg hne] at h
          simp only [exceptPure_eq_ok, Except.ok.injEq, Prod.mk.injEq] at h
          obtain ⟨hwc, hr⟩ := h
          subst hwc hr
          exact ⟨rfl, rfl, le_refl _, [], by simp⟩

/-- Whatever `aalTimestampCheck` returns without raising preserves the
error list and the score and can only grow the warning counter. -/
theorem aalTimestampCheck_ok_bound (entry : Json) (i wc : Nat) (result : CheckResult)
    (wc2 : Nat) (r2 : CheckResult)
    (h : aalTimestampCheck entry i wc result = .ok (wc2, r2)) :
    r2.errors = result.errors ∧ r2.score = result.score ∧ wc ≤ wc2 ∧
      ∃ w, r2.warnings = result.warnings ++ w := by
  unfold aalTimestampCheck at h
  rcases hc : pyContains entry "timestamp".data with e | b
  · rw [hc, exceptBind_error] at h
    cases h
  · rw [hc, exceptBind_ok] at h
    cases b with
    | false =>
      simp only [Bool.false_eq_true, if_false, ite_false, exceptPure_eq_ok,
        Except.ok.injEq, Prod.mk.injEq] at h
      obtain ⟨hwc, hr⟩ := h
      subst hwc hr
      exact ⟨rfl, rfl, le_refl _, [], by simp⟩
    | true =>
      simp only [if_true, ite_true] at h
      rcases hg : pyGetItem entry "timestamp".data with e | ts
      · rw [hg, exceptBind_error] at h
        cases h
      · rw [hg, exceptBind_ok] at h
        have hwarn : ∀ (wcx : Nat) (rx : CheckResult),
            (Except.ok (wcx, rx) : Except Unit (Nat × CheckResult)) = Except.ok (wc2, r2) →
            (rx.errors = result.errors ∧ rx.score = result.score ∧ wc ≤ wcx ∧
              ∃ w, rx.warnings = result.warnings ++ w) →
            r2.errors = result.errors ∧ r2.score = result.score ∧ wc ≤ wc2 ∧
              ∃ w, r2.warnings = result.warnings ++ w := by
          intro wcx rx hx hp
          simp only [Except.ok.injEq, Prod.mk.injEq] at hx
          obtain ⟨h1, h2⟩ := hx
          subst h1 h2
          exact hp
        have hadd : ∀ m : Msg,
            ((if wc + 1 ≤ 5 then result.add_warning m 0 else result).errors = result.errors ∧
             (if wc + 1 ≤ 5 then result.add_warning m 0 else result).score = result.score ∧
             wc ≤ wc + 1 ∧
             ∃ w, (if wc + 1 ≤ 5 then result.add_warning m 0 else result).warnings =
               result.warnings ++ w) := by
          intro m
          by_cases h5 : wc + 1 ≤ 5
          · rw [if_pos h5]
            exact ⟨rfl, by simp [CheckResult.add_warning], by omega, [m], rfl⟩
          · rw [if_neg h5]
            exact ⟨rfl, rfl, by omega, [], by simp⟩
        cases ts with
        | str s =>
          dsimp only at h
          by_cases hT : 'T' ∈ s
          · have hcon : List.contains s 'T' = true := by
              simpa using hT
            rw [if_neg (show ¬ ¬ List.contains s 'T' = true by simpa using hT)] at h
            exact hwarn _ _ h ⟨rfl, rfl, le_refl _, [], by simp⟩
          · have hcon : ¬ List.contains s 'T' = true := by
              simpa using hT
            rw [if_pos (show ¬ List.contains s 'T' = true from hcon)] at h
            exact hwarn _ _ h (hadd _)
        | null => exact hwarn _ _ h (hadd _)
        | bool b => exact hwarn _ _ h (hadd _)
        | num n => exact hwarn _ _ h (hadd _)
        | arr es => exact hwarn _ _ h (hadd _)
        | obj gs => exact hwarn _ _ h (hadd _)

/-- Processing a line that is not valid JSON increments the error counter
and (up to the third such line) records an error. -/
theorem aalScanLine_bad (st : AalScan) (i : Nat) (line : Str)
    (hloads : json_loads line = none) :
    aalScanLine st i line = .ok
      { result := if st.error_count + 1 ≤ 3 then
          st.result.add_error (.aalInvalidJson i) 1 else st.result,
        error_count := st.error_count + 1,
        warning_count := st.warning_count } := by
  unfold aalScanLine
  rw [hloads]
  rfl


/-- A loop iteration whose line parsed to some JSON value and that returns
normally leaves the error counter, the error list and the score unchanged
(all penalties on this path are 0). -/
theorem aalScanLine_entry_ok_props (st : AalScan) (i : Nat) (line : Str)
    (entry : Json) (st2 : AalScan)
    (hloads : json_loads line = some entry)
    (h : aalScanLine st i line = .ok st2) :
    st2.error_count = st.error_count ∧ st2.result.errors = st.result.errors ∧
      st2.result.score = st.result.score := by
  unfold aalScanLine at h
  rw [hloads] at h
  dsimp only at h
  rcases hm : pyMissingFields REQUIRED_AAL_FIELDS entry with e | missing
  · rw [hm, exceptBind_error] at h
    cases h
  · rw [hm, exceptBind_ok] at h
    rcases hp : (if missing ≠ [] then
        (st.warning_count + 1,
          if st.warning_count + 1 ≤ 5 then
            st.result.add_warning (.aalMissingFields i missing) 0 else st.result)
      else (st.warning_count, st.result)) with ⟨wc1, r1⟩
    rw [hp] at h
    have hr1 : r1.errors = st.result.errors ∧ r1.score = st.result.score := by
      by_cases hmiss : missing ≠ []
      · rw [if_pos hmiss] at hp
        by_cases h5 : st.warning_count + 1 ≤ 5
        · rw [if_pos h5] at hp
          simp only [Prod.mk.injEq] at hp
          rw [← hp.2]
          simp [CheckResult.add_warning]
        · rw [if_neg h5] at hp
          simp only [Prod.mk.injEq] at hp
          rw [← hp.2]
          exact ⟨rfl, rfl⟩
      · rw [if_neg hmiss] at hp
        simp only [Prod.mk.injEq] at hp
        rw [← hp.2]
        exact ⟨rfl, rfl⟩
    rcases hA : aalVersionCheck entry i wc1 r1 with e | p
    · rw [hA, exceptBind_error] at h
      cases h
    · obtain ⟨wcA, rA⟩ := p
      obtain ⟨heA, hsA, _, _⟩ := aalVersionCheck_ok_bound entry i wc1 r1 wcA rA hA
      rw [hA, exceptBind_ok] at h
      rcases hB : aalTimestampCheck entry i wcA rA with e | q
      · rw [hB, exceptBind_error] at h
        cases h
      · obtain ⟨wcB, rB⟩ := q
        obtain ⟨heB, hsB, _, _⟩ := aalTimestampCheck_ok_bound entry i wcA rA wcB rB hB
        rw [hB, exceptBind_ok] at h
        simp only [exceptPure_eq_ok, Except.ok.injEq] at h
        subst h
        exact ⟨rfl, by rw [heB, heA, hr1.1], by rw [hsB, hsA, hr1.2]⟩

/-- Any completed loop iteration grows the error counter monotonically,
only appends to the error list, preserves the invariant that a positive
error count implies a recorded error, and increments the error counter on
an unparseable line. -/
theorem aalScanLine_ok_props (st : AalScan) (i : Nat) (line : Str) (st2 : AalScan)
    (h : aalScanLine st i line = .ok st2) :
    st.error_count ≤ st2.error_count ∧
    (∃ t, st2.result.errors = st.result.errors ++ t) ∧
    ((1 ≤ st.error_count → st.result.errors ≠ []) →
      (1 ≤ st2.error_count → st2.result.errors ≠ [])) ∧
    (json_loads line = none → st2.error_count = st.error_count + 1) := by
  rcases hloads : json_loads line with _ | entry
  · rw [aalScanLine_bad st i line hloads] at h
    simp only [Except.ok.injEq] at h
    subst h
    dsimp only
    by_cases h3 : st.error_count + 1 ≤ 3
    · rw [if_pos h3]
      refine ⟨by omega, ⟨[.aalInvalidJson i], rfl⟩, ?_, fun _ => rfl⟩
      intro _ _
      simp [CheckResult.add_error]
    · rw [if_neg h3]
      refine ⟨by omega, ⟨[], by simp⟩, ?_, fun _ => rfl⟩
      intro hinv _
      exact hinv (by omega)
  · obtain ⟨hec, herr, hsc⟩ := aalScanLine_entry_ok_props st i line entry st2 hloads h
    refine ⟨by omega, ⟨[], by simp [herr]⟩, ?_, ?_⟩
    · intro hinv hc
      rw [herr]
      exact hinv (by omega)
    · intro hcontra
      simp at hcontra

/-- The `verify_aal` loop: the error counter is monotone, errors are only
appended, the positive-counter-implies-recorded-error invariant is
preserved, and any unparseable line forces a positive error counter. -/
theorem aalScanLines_props : ∀ (ls : List Str) (st : AalScan) (i : Nat) (st2 : AalScan),
    aalScanLines st i ls = .ok st2 →
    st.error_count ≤ st2.error_count ∧
    (∃ t, st2.result.errors = st.result.errors ++ t) ∧
    ((1 ≤ st.error_count → st.result.errors ≠ []) →
      (1 ≤ st2.error_count → st2.result.errors ≠ [])) ∧
    (∀ l ∈ ls, json_loads l = none → 1 ≤ st2.error_count)
  | [], st, i, st2, h => by
    simp only [aalScanLines, Except.ok.injEq] at h
    subst h
    exact ⟨le_refl _, ⟨[], by simp⟩, fun hinv => hinv, by simp⟩
  | l :: ls, st, i, st2, h => by
    unfold aalScanLines at h
    rcases hstep : aalScanLine st i l with e | stm
    · rw [hstep, exceptBind_error] at h
      cases h
    · rw [hstep, exceptBind_ok] at h
      obtain ⟨hmono1, ⟨t1, he1⟩, hinv1, hbad1⟩ := aalScanLine_ok_props st i l stm hstep
      obtain ⟨hmono2, ⟨t2, he2⟩, hinv2, hbad2⟩ := aalScanLines_props ls stm (i + 1) st2 h
      refine ⟨by omega, ⟨t1 ++ t2, by rw [he2, he1, List.append_assoc]⟩, ?_, ?_⟩
      · intro hinv
        exact hinv2 (hinv1 hinv)
      · intro x hx hbadx
        rcases List.mem_cons.mp hx with hx | hx
        · subst hx
          have := hbad1 hbadx
          omega
        · exact hbad2 x hx hbadx

/-- When some non-blank line of a present `aal.ndjson` is not valid JSON
and `verify_aal` completes normally, its error list is non-empty. -/
theorem verify_aal_bad_line (z : ZipArchive) (raw l : Str) (a : CheckResult)
    (hname : z.namelist.contains "aal.ndjson".data = true)
    (hread : z.zread "aal.ndjson".data = some raw)
    (hl : l ∈ (splitNl raw).filter pyNonBlank)
    (hbad : json_loads l = none)
    (hok : verify_aal z = .ok a) :
    a.errors ≠ [] := by
  unfold verify_aal at hok
  simp only [hname, not_true_eq_false, if_false, ite_false, Bool.true_eq_false, hread] at hok
  rw [if_neg (List.ne_nil_of_mem hl)] at hok
  rcases hscan : aalScanLines ⟨⟨4, [], []⟩, 0, 0⟩ 1 ((splitNl raw).filter pyNonBlank)
    with e | st2
  · rw [hscan, exceptBind_error] at hok
    cases hok
  · rw [hscan, exceptBind_ok] at hok
    obtain ⟨_, _, hinv, hbadline⟩ :=
      aalScanLines_props ((splitNl raw).filter pyNonBlank) ⟨⟨4, [], []⟩, 0, 0⟩ 1 st2 hscan
    have hec : 1 ≤ st2.error_count := hbadline l hl hbad
    have herr : st2.result.errors ≠ [] := hinv (by simp) hec
    simp only [exceptPure_eq_ok, Except.ok.injEq] at hok
    subst hok
    by_cases h3 : 3 < st2.error_count <;> by_cases h5 : 5 < st2.warning_count <;>
      simp only [h3, h5, if_true, ite_true, if_false, ite_false, CheckResult.add_error,
        CheckResult.add_warning] <;>
      simp [herr]

/-- An outcome with a non-empty error list is never valid and never maps to
the PASS exit code. -/
theorem not_pass_of_errors (r : VerificationResult) (h : r.all_errors ≠ []) :
    ¬ r.is_valid ∧ verdictCode r ≠ 0 := by
  have hnv : ¬ r.is_valid := fun hv => h hv.2
  refine ⟨hnv, ?_⟩
  unfold verdictCode
  rw [if_neg hnv]
  split_ifs <;> omega

/-- The error list of an outcome whose aal component has errors is
non-empty. -/
theorem allErrors_ne_of_aal (m a o : CheckResult) (hc : Option CheckResult)
    (ha : a.errors ≠ []) : (VerificationResult.mk m a o hc).all_errors ≠ [] := by
  unfold VerificationResult.all_errors
  simp only [List.append_assoc]
  intro hcontra
  rcases List.append_eq_nil.mp hcontra with ⟨h1, h2⟩
  rcases List.append_eq_nil.mp h2 with ⟨h3, h4⟩
  exact ha h3

/-- The error list of the all-error collapse outcome is non-empty. -/
theorem failResult_errors_ne (msg : Msg) : (failResult msg).all_errors ≠ [] := by
  simp [failResult, VerificationResult.all_errors, CheckResult.add_error]

/-! ### Claim C10 -/

/-- C10: for every readable archive whose `aal.ndjson` contains a non-blank
line that is not valid JSON, the verification outcome's error list is
non-empty, `is_valid` is false, and the verdict is never PASS, regardless
of the aggregate score.  (If another entry makes a check raise, the whole
verification collapses to the all-error outcome, which also has a
non-empty error list.) -/
theorem C10_malformed_line_never_pass (z : ZipArchive) (digest : Except Unit Str)
    (raw l : Str)
    (hname : z.namelist.contains "aal.ndjson".data = true)
    (hread : z.zread "aal.ndjson".data = some raw)
    (hl : l ∈ (splitNl raw).filter pyNonBlank)
    (hbad : json_loads l = none) :
    (verify_bundle (.archive z) digest).all_errors ≠ [] ∧
    ¬ (verify_bundle (.archive z) digest).is_valid ∧
    verdictCode (verify_bundle (.archive z) digest) ≠ 0 := by
  have herr : (verify_bundle (.archive z) digest).all_errors ≠ [] := by
    unfold verify_bundle
    rcases hm : verify_meta z with e | m
    · simp only [hm, exceptBind_error]
      exact failResult_errors_ne _
    · rcases ha : verify_aal z with e | a
      · simp only [hm, ha, exceptBind_ok, exceptBind_error]
        exact failResult_errors_ne _
      · rcases hh : verify_bundle_hash z digest with e | hc
        · simp only [hm, ha, hh, exceptBind_ok, exceptBind_error, exceptMap_error]
          exact failResult_errors_ne _
        · simp only [hm, ha, hh, exceptBind_ok, exceptMap_ok]
          exact allErrors_ne_of_aal m a _ hc
            (verify_aal_bad_line z raw l a hname hread hl hbad ha)
  obtain ⟨h1, h2⟩ := not_pass_of_errors _ herr
  exact ⟨herr, h1, h2⟩

/-- Concrete meta.json content with all required fields present. -/
def cexMetaGood : Str :=
  '{' :: "\"bundle_id\": \"b1\", \"version\": \"0.1\", \"timestamp\": \"2025-11-19T12:00:00Z\", \"system_info\": ".data ++
    '{' :: "\"name\": \"N\", \"version\": \"v\", \"operator\": \"Op\"".data ++ '}' :: '}' :: []

/-- Archive whose aal.ndjson consists of one non-blank line that is not
valid JSON. -/
def zC10 : ZipArchive :=
  ⟨[("meta.json".data, cexMetaGood), ("aal.ndjson".data, "not json\n".data)]⟩

/-- C10 (witness): the theorem applied to the concrete archive `zC10`. -/
theorem C10_malformed_line_never_pass_witness :
    (verify_bundle (.archive zC10) (.error ())).all_errors ≠ [] ∧
    ¬ (verify_bundle (.archive zC10) (.error ())).is_valid ∧
    verdictCode (verify_bundle (.archive zC10) (.error ())) ≠ 0 :=
  C10_malformed_line_never_pass zC10 (.error ()) "not json\n".data "not json".data
    (by decide) (by decide) (by decide) (by decide)

/-! ### Claim C4 -/

/-- `aalVersionCheck` on a JSON-object entry always returns normally. -/
theorem aalVersionCheck_obj_ok (fs : List (Str × Json)) (i wc : Nat) (result : CheckResult) :
    ∃ wc2 r2, aalVersionCheck (.obj fs) i wc result = .ok (wc2, r2) := by
  unfold aalVersionCheck
  simp only [pyContains, exceptBind_ok]
  cases hany : fs.any (fun f => f.1 == "aal_version".data) with
  | false =>
    refine ⟨wc, result, ?_⟩
    simp only [hany, Bool.false_eq_true, if_false, ite_false, exceptPure_eq_ok]
  | true =>
    obtain ⟨v, hv⟩ := lastAssoc_isSome_of_any fs _ hany
    by_cases hne : v ≠ Json.str VALID_AAL_VERSION
    · refine ⟨wc + 1,
        if wc + 1 ≤ 5 then result.add_warning (.aalVersionMismatch i v) 0 else result, ?_⟩
      simp only [hany, if_true, ite_true, pyGetItem, hv, exceptBind_ok]
      rw [if_pos hne]
      rfl
    · refine ⟨wc, result, ?_⟩
      simp only [hany, if_true, ite_true, pyGetItem, hv, exceptBind_ok]
      rw [if_neg hne]
      rfl

/-- `aalTimestampCheck` on a JSON-object entry always returns normally. -/
theorem aalTimestampCheck_obj_ok (fs : List (Str × Json)) (i wc : Nat) (result : CheckResult) :
    ∃ wc2 r2, aalTimestampCheck (.obj fs) i wc result = .ok (wc2, r2) := by
  unfold aalTimestampCheck
  simp only [pyContains, exceptBind_ok]
  cases hany : fs.any (fun f => f.1 == "timestamp".data) with
  | false =>
    refine ⟨wc, result, ?_⟩
    simp only [hany, Bool.false_eq_true, if_false, ite_false, exceptPure_eq_ok]
  | true =>
    obtain ⟨v, hv⟩ := lastAssoc_isSome_of_any fs _ hany
    cases v with
    | str s =>
      by_cases hT : 'T' ∈ s
      · refine ⟨wc, result, ?_⟩
        simp only [hany, if_true, ite_true, pyGetItem, hv, exceptBind_ok]
        rw [if_neg (show ¬ ¬ List.contains s 'T' = true by simpa using hT)]
        rfl
      · refine ⟨wc + 1,
          if wc + 1 ≤ 5 then result.add_warning (.aalTimestampNotIso i) 0 else result, ?_⟩
        simp only [hany, if_true, ite_true, pyGetItem, hv, exceptBind_ok]
        rw [if_pos (show ¬ List.contains s 'T' = true by simpa using hT)]
        rfl
    | null =>
      exact ⟨wc + 1, if wc + 1 ≤ 5 then result.add_warning (.aalTimestampNotIso i) 0 else result,
        by simp only [hany, if_true, ite_true, pyGetItem, hv, exceptBind_ok]; rfl⟩
    | bool b =>
      exact ⟨wc + 1, if wc + 1 ≤ 5 then result.add_warning (.aalTimestampNotIso i) 0 else result,
        by simp only [hany, if_true, ite_true, pyGetItem, hv, exceptBind_ok]; rfl⟩
    | num n =>
      exact ⟨wc + 1, if wc + 1 ≤ 5 then result.add_warning (.aalTimestampNotIso i) 0 else result,
        by simp only [hany, if_true, ite_true, pyGetItem, hv, exceptBind_ok]; rfl⟩
    | arr es =>
      exact ⟨wc + 1, if wc + 1 ≤ 5 then result.add_warning (.aalTimestampNotIso i) 0 else result,
        by simp only [hany, if_true, ite_true, pyGetItem, hv, exceptBind_ok]; rfl⟩
    | obj gs =>
      exact ⟨wc + 1, if wc + 1 ≤ 5 then result.add_warning (.aalTimestampNotIso i) 0 else result,
        by simp only [hany, if_true, ite_true, pyGetItem, hv, exceptBind_ok]; rfl⟩

/-- The loop body on a line that parses to a JSON object always returns
normally. -/
theorem aalScanLine_obj_ok (st : AalScan) (i : Nat) (line : Str) (fs : List (Str × Json))
    (hloads : json_loads line = some (.obj fs)) :
    ∃ st2, aalScanLine st i line = .ok st2 := by
  unfold aalScanLine
  rw [hloads]
  dsimp only
  rw [pyMissingFields_obj, exceptBind_ok]
  rcases hp : (if (REQUIRED_AAL_FIELDS.filter (fun f => !(fs.any (fun p => p.1 == f)))) ≠ [] then
      (st.warning_count + 1,
        if st.warning_count + 1 ≤ 5 then
          st.result.add_warning
            (.aalMissingFields i (REQUIRED_AAL_FIELDS.filter (fun f => !(fs.any (fun p => p.1 == f))))) 0
        else st.result)
    else (st.warning_count, st.result)) with ⟨wc1, r1⟩
  dsimp only
  obtain ⟨wcA, rA, hA⟩ := aalVersionCheck_obj_ok fs i wc1 r1
  rw [hA, exceptBind_ok]
  obtain ⟨wcB, rB, hB⟩ := aalTimestampCheck_obj_ok fs i wcA rA
  rw [hB, exceptBind_ok]
  exact ⟨⟨rB, st.error_count, wcB⟩, rfl⟩

/-- The loop over lines that all parse to JSON objects returns normally
with the error counter, the error list and the score unchanged. -/
theorem aalScanLines_obj_ok : ∀ (ls : List Str) (st : AalScan) (i : Nat),
    (∀ l ∈ ls, ∃ fs, json_loads l = some (.obj fs)) →
    ∃ st2, aalScanLines st i ls = .ok st2 ∧ st2.error_count = st.error_count ∧
      st2.result.errors = st.result.errors ∧ st2.result.score = st.result.score
  | [], st, i, _ => ⟨st, rfl, rfl, rfl, rfl⟩
  | l :: ls, st, i, hall => by
    obtain ⟨fs, hl⟩ := hall l (by simp)
    obtain ⟨stm, hstm⟩ := aalScanLine_obj_ok st i l fs hl
    obtain ⟨hec, herr, hsc⟩ := aalScanLine_entry_ok_props st i l _ stm hl hstm
    obtain ⟨st2, h2, hec2, herr2, hsc2⟩ :=
      aalScanLines_obj_ok ls stm (i + 1) (fun x hx => hall x (by simp [hx]))
    refine ⟨st2, ?_, by omega, by rw [herr2, herr], by rw [hsc2, hsc]⟩
    unfold aalScanLines
    rw [hstm, exceptBind_ok, h2]

/-- A parsed value is `some` JSON object. -/
def isObjOpt : Option Json → Bool
  | some (.obj _) => true
  | _ => false

/-- Concrete AAL line missing the required `actor` field. -/
def cexAalMissingActor : Str :=
  '{' :: "\"timestamp\": \"2025-11-19T12:00:01Z\", \"action\": \"x\"".data ++ '}' :: ['\n']

/-- Archive whose aal.ndjson has one entry missing the `actor` field. -/
def zC4a : ZipArchive :=
  ⟨[("meta.json".data, cexMetaGood), ("aal.ndjson".data, cexAalMissingActor)]⟩

/-- Archive whose aal.ndjson is present but has only blank lines. -/
def zC4b : ZipArchive :=
  ⟨[("meta.json".data, cexMetaGood), ("aal.ndjson".data, ['\n', ' ', '\n'])]⟩

/-- C4 (counterexample): an entry missing the required `actor` field leaves
the aal score at the full 4 (the warning carries a 0-point penalty, not
0.5); and an aal.ndjson with zero non-blank lines scores 2 (a 2-point
deduction, not 1). -/
theorem C4_counterexample :
    verify_aal zC4a = .ok ⟨4, [.aalMissingFields 1 ["actor".data]], []⟩ ∧
    verify_aal zC4b = .ok ⟨2, [.aalEmpty], []⟩ := by
  constructor
  · decide
  · decide

/-- C4 (amended): with `aal.ndjson` present, (a) zero non-blank lines
deduct exactly 2 points (one warning, no error); (b) when every non-blank
line parses to a JSON object, the aal component keeps its full score of 4
and records no errors — entries missing required fields only add warnings
with a zero deduction (aggregated into one note past the fifth warning). -/
theorem C4_aal_penalties (z : ZipArchive) (raw : Str)
    (hname : z.namelist.contains "aal.ndjson".data = true)
    (hread : z.zread "aal.ndjson".data = some raw) :
    ((splitNl raw).filter pyNonBlank = [] → verify_aal z = .ok ⟨2, [.aalEmpty], []⟩) ∧
    ((splitNl raw).filter pyNonBlank ≠ [] →
      (∀ l ∈ (splitNl raw).filter pyNonBlank, isObjOpt (json_loads l) = true) →
      ∃ a, verify_aal z = .ok a ∧ a.score = 4 ∧ a.errors = []) := by
  constructor
  · intro hempty
    unfold verify_aal
    simp only [hname, not_true_eq_false, if_false, ite_false, Bool.true_eq_false, hread]
    rw [if_pos hempty]
    rfl
  · intro hempty hall
    have hall2 : ∀ l ∈ (splitNl raw).filter pyNonBlank,
        ∃ fs, json_loads l = some (.obj fs) := by
      intro l hl
      have h := hall l hl
      rcases hj : json_loads l with _ | j
      · rw [hj] at h
        simp [isObjOpt] at h
      · rcases j with _ | b | n | s | es | fs
        · rw [hj] at h
          simp [isObjOpt] at h
        · rw [hj] at h
          simp [isObjOpt] at h
        · rw [hj] at h
          simp [isObjOpt] at h
        · rw [hj] at h
          simp [isObjOpt] at h
        · rw [hj] at h
          simp [isObjOpt] at h
        · exact ⟨fs, rfl⟩
    unfold verify_aal
    simp only [hname, not_true_eq_false, if_false, ite_false, Bool.true_eq_false, hread]
    obtain ⟨st2, hscan, hec, herr, hsc⟩ :=
      aalScanLines_obj_ok ((splitNl raw).filter pyNonBlank) ⟨⟨4, [], []⟩, 0, 0⟩ 1 hall2
    have hec0 : st2.error_count = 0 := by simpa using hec
    have herr0 : st2.result.errors = [] := by simpa using herr
    have hsc4 : st2.result.score = 4 := by simpa using hsc
    rw [if_neg hempty]
    rw [hscan, exceptBind_ok]
    rw [if_neg (show ¬ 3 < st2.error_count by omega)]
    by_cases h5 : 5 < st2.warning_count
    · rw [if_pos h5]
      refine ⟨_, rfl, ?_, ?_⟩
      · simp only [CheckResult.add_warning, sub_zero]
        exact hsc4
      · simp only [CheckResult.add_warning]
        exact herr0
    · rw [if_neg h5]
      exact ⟨st2.result, rfl, hsc4, herr0⟩

/-- C4 (witness): the amended theorem applied to the concrete archive
`zC4a` whose single entry misses the `actor` field. -/
theorem C4_aal_penalties_witness :
    ∃ a, verify_aal zC4a = .ok a ∧ a.score = 4 ∧ a.errors = [] :=
  (C4_aal_penalties zC4a cexAalMissingActor (by decide) (by decide)).2 (by decide) (by decide)

/-! ### Claim C6 -/

/-- Forward characterization of a present hash component: meta.json was
read and parsed, it contains `bundle_sha256`, the declared value was
retrieved, and the component records no error exactly when the digest was
computed and equals the declared value. -/
theorem verify_bundle_hash_some (z : ZipArchive) (digest : Except Unit Str)
    (hc : CheckResult) (h : verify_bundle_hash z digest = .ok (some hc)) :
    ∃ raw m, z.zread "meta.json".data = some raw ∧ json_loads raw = some m ∧
      pyContains m "bundle_sha256".data = .ok true ∧
      ∃ expected, pyGetItem m "bundle_sha256".data = .ok expected ∧
        (hc.errors = [] ↔ ∃ actual, digest = .ok actual ∧ Json.str actual = expected) := by
  unfold verify_bundle_hash at h
  rcases hread : z.zread "meta.json".data with _ | raw
  · rw [hread] at h
    simp [exceptPure_eq_ok] at h
  · rw [hread] at h
    dsimp only at h
    rcases hparse : json_loads raw with _ | m
    · rw [hparse] at h
      simp [exceptPure_eq_ok] at h
    · rw [hparse] at h
      dsimp only at h
      rcases hcont : pyContains m "bundle_sha256".data with e | b
      · rw [hcont, exceptBind_error] at h
        cases h
      · rw [hcont, exceptBind_ok] at h
        cases b with
        | false =>
          rw [if_pos (by simp)] at h
          simp [exceptPure_eq_ok] at h
        | true =>
          rw [if_neg (by simp)] at h
          rcases hget : pyGetItem m "bundle_sha256".data with e | expected
          · rw [hget, exceptBind_error] at h
            cases h
          · rw [hget, exceptBind_ok] at h
            refine ⟨raw, m, rfl, hparse, hcont, expected, hget, ?_⟩
            rcases digest with e | actual
            · dsimp only at h
              simp only [exceptPure_eq_ok, Except.ok.injEq, Option.some.injEq] at h
              subst h
              constructor
              · intro hcontra
                simp [CheckResult.add_error] at hcontra
              · rintro ⟨actual, hcontra, _⟩
                cases hcontra
            · dsimp only at h
              by_cases hne : Json.str actual ≠ expected
              · rw [if_pos hne] at h
                simp only [exceptPure_eq_ok, Except.ok.injEq, Option.some.injEq] at h
                subst h
                constructor
                · intro hcontra
                  simp [CheckResult.add_error] at hcontra
                · rintro ⟨actual2, heq, hstr⟩
                  simp only [Except.ok.injEq] at heq
                  subst heq
                  exact absurd hstr hne
              · rw [if_neg hne] at h
                simp only [exceptPure_eq_ok, Except.ok.injEq, Option.some.injEq] at h
                subst h
                simp only [ne_eq, not_not] at hne
                exact ⟨fun _ => ⟨actual, rfl, hne⟩, fun _ => rfl⟩

/-- A readable, parseable meta.json without a declared `bundle_sha256`
yields no hash component. -/
theorem verify_bundle_hash_not_declared (z : ZipArchive) (digest : Except Unit Str)
    (raw : Str) (m : Json)
    (hread : z.zread "meta.json".data = some raw) (hparse : json_loads raw = some m)
    (hnd : pyContains m "bundle_sha256".data = .ok false) :
    verify_bundle_hash z digest = .ok none := by
  unfold verify_bundle_hash
  rw [hread]
  dsimp only
  rw [hparse]
  dsimp only
  rw [hnd, exceptBind_ok, if_pos (by simp : ¬ false = true)]
  rfl

/-- An unreadable meta.json yields no hash component. -/
theorem verify_bundle_hash_no_meta (z : ZipArchive) (digest : Except Unit Str)
    (hread : z.zread "meta.json".data = none) :
    verify_bundle_hash z digest = .ok none := by
  unfold verify_bundle_hash
  rw [hread]
  rfl

/-- A present hash component in the final outcome comes from a normally
returning `verify_bundle_hash`. -/
theorem hash_check_some_imp (z : ZipArchive) (digest : Except Unit Str) (hc : CheckResult)
    (h : (verify_bundle (.archive z) digest).hash_check = some hc) :
    verify_bundle_hash z digest = .ok (some hc) := by
  have key : (verify_bundle (.archive z) digest).hash_check = none ∨
      verify_bundle_hash z digest = .ok ((verify_bundle (.archive z) digest).hash_check) := by
    unfold verify_bundle
    dsimp only
    rcases hm : verify_meta z with e | m
    · rw [exceptBind_error]
      exact Or.inl rfl
    · rw [exceptBind_ok]
      rcases ha : verify_aal z with e | a
      · rw [exceptBind_error]
        exact Or.inl rfl
      · rw [exceptBind_ok]
        rcases hh : verify_bundle_hash z digest with e | hcopt
        · rw [exceptBind_error]
          exact Or.inl rfl
        · rw [exceptBind_ok]
          exact Or.inr rfl
  rcases key with hnone | heq
  · rw [h] at hnone
    cases hnone
  · rw [h] at heq
    exact heq

/-- When `verify_bundle_hash` reports no component, the final outcome has
no hash component either (the collapse outcomes also have none). -/
theorem hash_check_none_of (z : ZipArchive) (digest : Except Unit Str)
    (h : verify_bundle_hash z digest = .ok none) :
    (verify_bundle (.archive z) digest).hash_check = none := by
  unfold verify_bundle
  dsimp only
  rcases hm : verify_meta z with e | m
  · rw [exceptBind_error]
    rfl
  · rw [exceptBind_ok]
    rcases ha : verify_aal z with e | a
    · rw [exceptBind_error]
      rfl
    · rw [exceptBind_ok, h]
      rfl

/-- Concrete meta.json declaring a `bundle_sha256`. -/
def cexMetaWithHash : Str :=
  '{' :: "\"bundle_id\": \"b1\", \"version\": \"0.1\", \"timestamp\": \"2025-11-19T12:00:00Z\", \"bundle_sha256\": \"abc\", \"system_info\": ".data ++
    '{' :: "\"name\": \"N\", \"version\": \"v\", \"operator\": \"Op\"".data ++ '}' :: '}' :: []

/-- Parsed fields of `cexMetaWithHash`. -/
def cexMetaWithHashFields : List (Str × Json) :=
  [("bundle_id".data, .str "b1".data),
   ("version".data, .str "0.1".data),
   ("timestamp".data, .str "2025-11-19T12:00:00Z".data),
   ("bundle_sha256".data, .str "abc".data),
   ("system_info".data, .obj
     [("name".data, .str "N".data),
      ("version".data, .str "v".data),
      ("operator".data, .str "Op".data)])]

/-- Archive that declares `bundle_sha256` in a readable meta.json but whose
aal.ndjson line parses to a bare integer, so `verify_aal` raises a
`TypeError` and verification collapses. -/
def zC6 : ZipArchive :=
  ⟨[("meta.json".data, cexMetaWithHash), ("aal.ndjson".data, "5\n".data)]⟩

/-- C6 (counterexample): in `zC6` meta.json is readable and declares
`bundle_sha256`, yet the hash component is absent from the outcome —
the membership test on the non-object AAL entry raises, and the whole
verification collapses to the all-error outcome whose `hash_check` is
`None`.  This refutes the claimed "present if and only if declared". -/
theorem C6_counterexample :
    zC6.zread "meta.json".data = some cexMetaWithHash ∧
    json_loads cexMetaWithHash = some (.obj cexMetaWithHashFields) ∧
    pyContains (.obj cexMetaWithHashFields) "bundle_sha256".data = .ok true ∧
    (verify_bundle (.archive zC6) (.ok "abc".data)).hash_check = none := by
  refine ⟨by decide, by decide, by decide, by decide⟩

/-- C6 (amended): (i) when the hash component is present, meta.json was
readable and declared `bundle_sha256`, and the component records an error
if and only if the digest could not be computed or differs from the
declared value; (ii) with a readable meta.json that does not declare
`bundle_sha256`, and (iii) with an unreadable meta.json, the component is
absent; (iv) a hash error prevents a PASS verdict regardless of the other
component scores.  The only failure of the claimed "present iff declared"
is a verification collapse from an unexpected internal error (see the
counterexample). -/
theorem C6_hash_component (z : ZipArchive) (digest : Except Unit Str) :
    (∀ hc, (verify_bundle (.archive z) digest).hash_check = some hc →
      ∃ raw m, z.zread "meta.json".data = some raw ∧ json_loads raw = some m ∧
        pyContains m "bundle_sha256".data = .ok true ∧
        ∃ expected, pyGetItem m "bundle_sha256".data = .ok expected ∧
          (hc.errors = [] ↔ ∃ actual, digest = .ok actual ∧ Json.str actual = expected)) ∧
    (∀ raw m, z.zread "meta.json".data = some raw → json_loads raw = some m →
      pyContains m "bundle_sha256".data = .ok false →
      (verify_bundle (.archive z) digest).hash_check = none) ∧
    (z.zread "meta.json".data = none →
      (verify_bundle (.archive z) digest).hash_check = none) ∧
    (∀ hc, (verify_bundle (.archive z) digest).hash_check = some hc → hc.errors ≠ [] →
      ¬ (verify_bundle (.archive z) digest).is_valid ∧
      verdictCode (verify_bundle (.archive z) digest) ≠ 0) := by
  refine ⟨?_, ?_, ?_, ?_⟩
  · intro hc h
    exact verify_bundle_hash_some z digest hc (hash_check_some_imp z digest hc h)
  · intro raw m hread hparse hnd
    exact hash_check_none_of z digest
      (verify_bundle_hash_not_declared z digest raw m hread hparse hnd)
  · intro hread
    exact hash_check_none_of z digest (verify_bundle_hash_no_meta z digest hread)
  · intro hc hsome herr
    apply not_pass_of_errors
    unfold VerificationResult.all_errors
    rw [hsome]
    intro hcontra
    rcases List.append_eq_nil.mp hcontra with ⟨_, h2⟩
    exact herr h2

/-- Archive with a readable meta.json that does not declare
`bundle_sha256`. -/
def zC6w : ZipArchive :=
  ⟨[("meta.json".data, cexMetaGood), ("aal.ndjson".data, cexAalGood)]⟩

/-- Parsed fields of `cexMetaGood`. -/
def cexMetaGoodFields : List (Str × Json) :=
  [("bundle_id".data, .str "b1".data),
   ("version".data, .str "0.1".data),
   ("timestamp".data, .str "2025-11-19T12:00:00Z".data),
   ("system_info".data, .obj
     [("name".data, .str "N".data),
      ("version".data, .str "v".data),
      ("operator".data, .str "Op".data)])]

/-- C6 (witness): the amended theorem applied to a concrete archive whose
meta.json does not declare a hash: the component is absent. -/
theorem C6_hash_component_witness :
    (verify_bundle (.archive zC6w) (.ok "abc".data)).hash_check = none :=
  (C6_hash_component zC6w (.ok "abc".data)).2.1 cexMetaGood (.obj cexMetaGoodFields)
    (by decide) (by decide) (by decide)

/-! ### Claim C9: printer facts -/

theorem hexDigitChar_ne_nl (d : Nat) (hd : d < 16) : hexDigitChar d ≠ '\n' := by
  interval_cases d <;> decide

theorem escapeChar_no_nl (c : Char) : '\n' ∉ escapeChar c := by
  unfold escapeChar
  split_ifs with h1 h2 h3 h4 h5 h6 h7 h8
  · decide
  · decide
  · decide
  · decide
  · decide
  · decide
  · decide
  · intro hmem
    have hd1 : c.toNat / 16 < 16 := by omega
    have hd2 : c.toNat % 16 < 16 := by omega
    simp only [List.mem_cons, List.not_mem_nil, or_false] at hmem
    rcases hmem with h | h | h | h | h | h
    · cases h
    · cases h
    · cases h
    · cases h
    · exact hexDigitChar_ne_nl _ hd1 h.symm
    · exact hexDigitChar_ne_nl _ hd2 h.symm
  · intro hmem
    simp only [List.mem_cons, List.not_mem_nil, or_false] at hmem
    subst hmem
    exact h8 (by decide)

theorem escapeStr_no_nl : ∀ (s : Str), '\n' ∉ escapeStr s
  | [] => by decide
  | c :: cs => by
    unfold escapeStr
    rw [List.mem_append]
    rintro (h | h)
    · exact escapeChar_no_nl c h
    · exact escapeStr_no_nl cs h

theorem natDigits_isDigit : ∀ (n : Nat), ∀ c ∈ natDigits n, c.isDigit = true := by
  intro n
  induction n using Nat.strong_induction_on with
  | _ n ih =>
    rw [natDigits]
    split_ifs with h
    · intro c hc
      simp only [List.mem_singleton] at hc
      subst hc
      interval_cases n <;> decide
    · intro c hc
      rw [List.mem_append] at hc
      rcases hc with hc | hc
      · exact ih (n / 10) (Nat.div_lt_self (by omega) (by omega)) c hc
      · simp only [List.mem_singleton] at hc
        subst hc
        have hm : n % 10 < 10 := Nat.mod_lt _ (by omega)
        set d := n % 10 with hd
        interval_cases d <;> decide

theorem natDigits_no_nl (n : Nat) : '\n' ∉ natDigits n := by
  intro h
  have := natDigits_isDigit n '\n' h
  cases this

theorem intDigits_no_nl : ∀ (n : Int), '\n' ∉ intDigits n
  | .ofNat n => natDigits_no_nl n
  | .negSucc n => by
    unfold intDigits
    rw [List.mem_cons]
    rintro (h | h)
    · cases h
    · exact natDigits_no_nl (n + 1) h

mutual

theorem dumpsVal_no_nl : ∀ (lvl : Nat) (j : Json), '\n' ∉ dumpsVal none lvl j
  | lvl, .null => by unfold dumpsVal; decide
  | lvl, .bool true => by unfold dumpsVal; decide
  | lvl, .bool false => by unfold dumpsVal; decide
  | lvl, .num n => intDigits_no_nl n
  | lvl, .str s => by
    unfold dumpsVal
    intro h
    simp at h
    exact escapeStr_no_nl s h
  | lvl, .arr [] => by unfold dumpsVal; decide
  | lvl, .arr (x :: xs) => by
    unfold dumpsVal
    intro h
    simp [openPad, closePad] at h
    exact dumpsElems_no_nl (lvl + 1) (x :: xs) h
  | lvl, .obj [] => by unfold dumpsVal; decide
  | lvl, .obj (f :: fs) => by
    unfold dumpsVal
    intro h
    simp [openPad, closePad] at h
    exact dumpsFields_no_nl (lvl + 1) (f :: fs) h

theorem dumpsElems_no_nl : ∀ (lvl : Nat) (l : List Json), '\n' ∉ dumpsElems none lvl l
  | lvl, [] => by unfold dumpsElems; decide
  | lvl, [x] => by
    unfold dumpsElems
    exact dumpsVal_no_nl lvl x
  | lvl, x :: y :: xs => by
    unfold dumpsElems
    intro h
    simp [itemPad] at h
    rcases h with h | h
    · exact dumpsVal_no_nl lvl x h
    · exact dumpsElems_no_nl lvl (y :: xs) h

theorem dumpsFields_no_nl : ∀ (lvl : Nat) (l : List (Str × Json)), '\n' ∉ dumpsFields none lvl l
  | lvl, [] => by unfold dumpsFields; decide
  | lvl, [(k, v)] => by
    unfold dumpsFields
    intro h
    simp at h
    rcases h with h | h
    · exact escapeStr_no_nl k h
    · exact dumpsVal_no_nl lvl v h
  | lvl, (k, v) :: f :: fs => by
    unfold dumpsFields
    intro h
    simp [itemPad] at h
    rcases h with h | h | h
    · exact escapeStr_no_nl k h
    · exact dumpsVal_no_nl lvl v h
    · exact dumpsFields_no_nl lvl (f :: fs) h

end

theorem json_dumps_no_nl (j : Json) : '\n' ∉ json_dumps j := dumpsVal_no_nl 0 j

/-- Inputs of one `add_event` call (the clock reading included). -/
structure EventCall where
  actor : Str
  action : Str
  timestamp : Option Str
  input : Option Json
  output : Option Json
  metadata : Option Json
  nowDt : DateTime
  deriving DecidableEq

/-- The event dict built by `add_event` for one call. -/
def eventJson (c : EventCall) : Json :=
  Json.obj
    ([("timestamp".data, Json.str (c.timestamp.getD (iso_now c.nowDt))),
      ("actor".data, Json.str c.actor), ("action".data, Json.str c.action)] ++
     (match c.input with | some v => [("input".data, v)] | none => []) ++
     (match c.output with | some v => [("output".data, v)] | none => []) ++
     (match c.metadata with | some v => [("metadata".data, v)] | none => []))

/-- Apply a sequence of `add_event` calls in order. -/
def applyEvents (b : EvidenceBundle) : List EventCall → EvidenceBundle
  | [] => b
  | c :: cs =>
    applyEvents (b.add_event c.actor c.action c.timestamp c.input c.output c.metadata c.nowDt) cs

theorem applyEvents_events : ∀ (cs : List EventCall) (b : EvidenceBundle),
    (applyEvents b cs).events = b.events ++ cs.map eventJson ∧
    (applyEvents b cs).attachments = b.attachments
  | [], b => by simp [applyEvents]
  | c :: cs, b => by
    unfold applyEvents
    obtain ⟨h1, h2⟩ := applyEvents_events cs
      (b.add_event c.actor c.action c.timestamp c.input c.output c.metadata c.nowDt)
    constructor
    · rw [h1]
      simp [EvidenceBundle.add_event, eventJson]
    · rw [h2]
      rfl

theorem splitNl_append_line (s t : Str) (hs : '\n' ∉ s) :
    splitNl (s ++ '\n' :: t) = s :: splitNl t := by
  induction s with
  | nil => simp [splitNl]
  | cons c cs ih =>
    have hc : c ≠ '\n' := fun h => hs (by simp [h])
    have hcs : '\n' ∉ cs := fun h => hs (List.mem_cons_of_mem _ h)
    rw [List.cons_append, splitNl, if_neg hc, ih hcs]

theorem splitNl_aalNdjson : ∀ (evs : List Json),
    splitNl (aalNdjson evs) = evs.map json_dumps ++ [[]]
  | [] => rfl
  | e :: es => by
    unfold aalNdjson
    rw [splitNl_append_line _ _ (json_dumps_no_nl e), splitNl_aalNdjson es]
    simp

/-- The compact serialization of a non-empty JSON object is a non-blank
line. -/
theorem pyNonBlank_dumps_obj (f : Str × Json) (fs : List (Str × Json)) :
    pyNonBlank (json_dumps (Json.obj (f :: fs))) = true := by
  unfold json_dumps dumpsVal pyNonBlank
  simp [openPad]

/-- Every event dict is a non-empty JSON object. -/
theorem eventJson_isObjCons (c : EventCall) : ∃ f fs, eventJson c = Json.obj (f :: fs) :=
  ⟨_, _, rfl⟩

theorem aalNdjson_trailing : ∀ (e : Json) (es : List Json),
    ∃ s, aalNdjson (e :: es) = s ++ ['\n']
  | e, [] => ⟨json_dumps e, by simp [aalNdjson]⟩
  | e, f :: es => by
    obtain ⟨s, hs⟩ := aalNdjson_trailing f es
    refine ⟨json_dumps e ++ '\n' :: s, ?_⟩
    unfold aalNdjson
    rw [hs]
    simp

/-- C9: for every sequence of `add_event` calls followed by `write_zip`,
the archive's `aal.ndjson` entry is the in-order concatenation of each
event's compact JSON followed by a newline; splitting on newlines yields
exactly the events' compact JSON lines (in call order) plus one final
empty part, so the non-blank line count equals the number of calls; the
entry is the empty string when there are zero calls and ends in a newline
when there is at least one. -/
theorem C9_aal_serialization (id sn sv op ver : Str) (inc : Option Str)
    (tg : Option (List Str)) (dis : Option Str) (dt : DateTime) (calls : List EventCall) :
    (applyEvents (EvidenceBundle.make id sn sv op ver inc tg dis dt) calls).write_zip.zread
        "aal.ndjson".data = some (aalNdjson (calls.map eventJson)) ∧
    splitNl (aalNdjson (calls.map eventJson)) =
      calls.map (fun c => json_dumps (eventJson c)) ++ [[]] ∧
    ((splitNl (aalNdjson (calls.map eventJson))).filter pyNonBlank).length = calls.length ∧
    (calls = [] → aalNdjson (calls.map eventJson) = []) ∧
    (calls ≠ [] → ∃ s, aalNdjson (calls.map eventJson) = s ++ ['\n']) := by
  obtain ⟨hev, hatt⟩ :=
    applyEvents_events calls (EvidenceBundle.make id sn sv op ver inc tg dis dt)
  refine ⟨?_, ?_, ?_, ?_, ?_⟩
  · unfold EvidenceBundle.write_zip ZipArchive.zread
    rw [hatt, hev]
    rfl
  · rw [splitNl_aalNdjson]
    simp
  · rw [splitNl_aalNdjson, List.filter_append]
    have h1 : List.filter pyNonBlank ((calls.map eventJson).map json_dumps) =
        (calls.map eventJson).map json_dumps := by
      rw [List.filter_eq_self]
      intro a ha
      rw [List.mem_map] at ha
      obtain ⟨e, he, rfl⟩ := ha
      rw [List.mem_map] at he
      obtain ⟨c, _, rfl⟩ := he
      obtain ⟨f, fs, hobj⟩ := eventJson_isObjCons c
      rw [hobj]
      exact pyNonBlank_dumps_obj f fs
    rw [h1]
    simp [pyNonBlank]
  · intro h
    subst h
    rfl
  · intro h
    rcases calls with _ | ⟨c, cs⟩
    · exact absurd rfl h
    · exact aalNdjson_trailing (eventJson c) (cs.map eventJson)

/-! ### Round-trip: `json.loads` recovers what `json.dumps` wrote

The builder writes `meta.json` with `json.dumps(..., indent=2)` and AAL
lines with compact `json.dumps`; the verifier reads both back through
`json.loads`.  The following development proves the parse of a dump
returns exactly the dumped value. -/

/-- Every character of `p` is JSON whitespace. -/
def wsOnly (p : Str) : Prop := ∀ c ∈ p, jsonWsChar c = true

/-- The remaining input does not start with a character that could extend
a numeral (`digit`, `.`, `e`, `E`). -/
def restSafe (rest : Str) : Prop :=
  ∀ c, rest.head? = some c → c.isDigit = false ∧ c ≠ '.' ∧ c ≠ 'e' ∧ c ≠ 'E'

theorem wsOnly_nil : wsOnly [] := by intro c hc; cases hc

theorem restSafe_nil : restSafe [] := by intro c hc; cases hc

theorem skipWs_append_ws (p : Str) (hp : wsOnly p) (s : Str) :
    skipWs (p ++ s) = skipWs s := by
  induction p with
  | nil => rfl
  | cons c cs ih =>
    rw [List.cons_append, skipWs, if_pos (hp c (List.mem_cons_self c cs))]
    exact ih (fun d hd => hp d (List.mem_cons_of_mem c hd))

theorem skipWs_cons_nonws (c : Char) (s : Str) (hc : jsonWsChar c = false) :
    skipWs (c :: s) = c :: s := by
  rw [skipWs, if_neg (by simp [hc])]

theorem wsOnly_openPad (iOpt : Option Nat) (lvl : Nat) :
    wsOnly (openPad iOpt lvl) := by
  intro c hc
  cases iOpt with
  | none => cases hc
  | some w =>
    simp only [openPad, padSpaces, List.mem_cons] at hc
    rcases hc with rfl | hc
    · decide
    · rw [List.eq_of_mem_replicate hc]; decide

theorem wsOnly_itemPad (iOpt : Option Nat) (lvl : Nat) :
    wsOnly (itemPad iOpt lvl) := by
  intro c hc
  cases iOpt with
  | none =>
    simp only [itemPad, List.mem_singleton] at hc
    subst hc; decide
  | some w =>
    simp only [itemPad, padSpaces, List.mem_cons] at hc
    rcases hc with rfl | hc
    · decide
    · rw [List.eq_of_mem_replicate hc]; decide

theorem wsOnly_closePad (iOpt : Option Nat) (lvl : Nat) :
    wsOnly (closePad iOpt lvl) := by
  intro c hc
  cases iOpt with
  | none => cases hc
  | some w =>
    simp only [closePad, padSpaces, List.mem_cons] at hc
    rcases hc with rfl | hc
    · decide
    · rw [List.eq_of_mem_replicate hc]; decide

theorem ws_char_class (c : Char) (h : jsonWsChar c = true) :
    c.isDigit = false ∧ c ≠ '.' ∧ c ≠ 'e' ∧ c ≠ 'E' := by
  simp only [jsonWsChar, Bool.or_eq_true, decide_eq_true_eq] at h
  rcases h with ((rfl | rfl) | rfl) | rfl <;> exact ⟨by decide, by decide, by decide, by decide⟩

theorem restSafe_pad (pad : Str) (hpad : wsOnly pad) (b : Char) (rest : Str)
    (hb : b.isDigit = false ∧ b ≠ '.' ∧ b ≠ 'e' ∧ b ≠ 'E') :
    restSafe (pad ++ b :: rest) := by
  intro c hc
  cases pad with
  | nil =>
    simp only [List.nil_append, List.head?_cons, Option.some_inj] at hc
    subst hc; exact hb
  | cons p ps =>
    simp only [List.cons_append, List.head?_cons, Option.some_inj] at hc
    subst hc
    exact ws_char_class p (hpad p (List.mem_cons_self p ps))

theorem isDigit_class (c : Char) (h : c.isDigit = true) :
    jsonWsChar c = false ∧ c ≠ ']' ∧ c ≠ '}' ∧ c ≠ 'n' ∧ c ≠ 't' ∧ c ≠ 'f' ∧
      c ≠ '"' ∧ c ≠ '[' ∧ c ≠ '{' ∧ c ≠ '-' := by
  have hb : 48 ≤ c.toNat ∧ c.toNat ≤ 57 := by
    simp only [Char.isDigit, Bool.and_eq_true, decide_eq_true_eq, Char.le_def] at h
    exact ⟨h.1, h.2⟩
  have hne : ∀ d : Char, ¬(48 ≤ d.toNat ∧ d.toNat ≤ 57) → c ≠ d := by
    intro d hd he
    subst he
    exact hd hb
  refine ⟨?_, hne _ (by decide), hne _ (by decide), hne _ (by decide), hne _ (by decide),
    hne _ (by decide), hne _ (by decide), hne _ (by decide), hne _ (by decide),
    hne _ (by decide)⟩
  have h1 : c ≠ ' ' := hne _ (by decide)
  have h2 : c ≠ '\t' := hne _ (by decide)
  have h3 : c ≠ '\n' := hne _ (by decide)
  have h4 : c ≠ '\r' := hne _ (by decide)
  simp [jsonWsChar, h1, h2, h3, h4]

theorem digitsVal_append_one (a : Str) (c : Char) :
    digitsVal (a ++ [c]) = 10 * digitsVal a + (c.toNat - 48) := by
  rw [digitsVal, List.foldl_append]
  rfl

theorem digitsVal_natDigits (n : Nat) : digitsVal (natDigits n) = n := by
  induction n using Nat.strong_induction_on with
  | _ n ih =>
    rw [natDigits]
    split_ifs with h
    · interval_cases n <;> decide
    · rw [digitsVal_append_one, ih (n / 10) (Nat.div_lt_self (by omega) (by omega))]
      have hm : n % 10 < 10 := Nat.mod_lt _ (by omega)
      have hv : (digitChar (n % 10)).toNat - 48 = n % 10 := by
        set d := n % 10 with hd
        interval_cases d <;> decide
      rw [hv]
      omega

theorem natDigits_ne_nil (n : Nat) : natDigits n ≠ [] := by
  rw [natDigits]
  split_ifs with h
  · exact List.cons_ne_nil _ _
  · exact List.append_ne_nil_of_right_ne_nil _ (List.cons_ne_nil _ _)

theorem natDigits_cons (n : Nat) : ∃ d ds, natDigits n = d :: ds := by
  rcases hd : natDigits n with _ | ⟨d, ds⟩
  · exact absurd hd (natDigits_ne_nil n)
  · exact ⟨d, ds, rfl⟩

theorem natDigits_head_ne_zero : ∀ (n : Nat), 1 ≤ n →
    ∀ d ds, natDigits n = d :: ds → d ≠ '0' := by
  intro n
  induction n using Nat.strong_induction_on with
  | _ n ih =>
    intro hn d ds hnd
    rw [natDigits] at hnd
    split_ifs at hnd with h
    · rw [List.cons.injEq] at hnd
      obtain ⟨rfl, -⟩ := hnd
      interval_cases n <;> decide
    · obtain ⟨d', ds', hd'⟩ := natDigits_cons (n / 10)
      rw [hd', List.cons_append, List.cons.injEq] at hnd
      obtain ⟨rfl, -⟩ := hnd
      exact ih (n / 10) (Nat.div_lt_self (by omega) (by omega))
        (by omega) _ ds' hd'

theorem takeDigits_append (ds rest : Str) (hds : ∀ c ∈ ds, c.isDigit = true)
    (hrest : ∀ c, rest.head? = some c → c.isDigit = false) :
    takeDigits (ds ++ rest) = (ds, rest) := by
  induction ds with
  | nil =>
    rw [List.nil_append]
    cases rest with
    | nil => rfl
    | cons c cs =>
      rw [takeDigits, if_neg]
      simp [hrest c rfl]
  | cons d ds ih =>
    rw [List.cons_append, takeDigits,
      if_pos (by simp [hds d (List.mem_cons_self d ds)]),
      ih (fun c hc => hds c (List.mem_cons_of_mem d hc))]

theorem parseIntRest_natDigits (neg : Bool) (n : Nat) (rest : Str)
    (hrest : restSafe rest) :
    parseIntRest neg (natDigits n ++ rest) =
      some (.num (if neg then -(n : Int) else (n : Int)), rest) := by
  have htake : takeDigits (natDigits n ++ rest) = (natDigits n, rest) :=
    takeDigits_append _ _ (natDigits_isDigit n) (fun c hc => (hrest c hc).1)
  obtain ⟨d, ds, hnd⟩ := natDigits_cons n
  have hlead : ¬(d = '0' ∧ ds ≠ []) := by
    rcases Nat.eq_zero_or_pos n with rfl | hpos
    · rintro ⟨-, hne⟩
      have : natDigits 0 = ['0'] := by rw [natDigits]; rfl
      rw [this, List.cons.injEq] at hnd
      exact hne hnd.2.symm
    · rintro ⟨rfl, -⟩
      exact natDigits_head_ne_zero n hpos _ ds hnd rfl
  have hval : digitsVal (d :: ds) = n := by
    rw [← hnd, digitsVal_natDigits]
  rw [parseIntRest, htake]
  dsimp only
  rw [hnd]
  dsimp only
  rw [if_neg hlead]
  cases rest with
  | nil =>
    dsimp only
    simp only [hval]
  | cons c cs =>
    obtain ⟨-, h1, h2, h3⟩ := hrest c rfl
    dsimp only
    rw [if_neg (by simp [h1, h2, h3])]
    simp only [hval]

theorem hexVal_hexDigitChar (d : Nat) (hd : d < 16) :
    hexVal (hexDigitChar d) = some d := by
  interval_cases d <;> decide

theorem parseStringBody_escape : ∀ (s rest : Str) (fuel : Nat), s.length + 1 ≤ fuel →
    parseStringBody fuel (escapeStr s ++ '"' :: rest) = some (s, rest) := by
  intro s
  induction s with
  | nil =>
    intro rest fuel hfuel
    obtain ⟨f, rfl⟩ : ∃ f, fuel = f + 1 := ⟨fuel - 1, by omega⟩
    rw [escapeStr, List.nil_append, parseStringBody.eq_def]
    simp only [reduceIte]
  | cons c cs ih =>
    intro rest fuel hfuel
    obtain ⟨f, rfl⟩ : ∃ f, fuel = f + 1 := ⟨fuel - 1, by omega⟩
    have hcs : cs.length + 1 ≤ f := by
      simp only [List.length_cons] at hfuel
      omega
    rw [escapeStr, List.append_assoc]
    by_cases h1 : c = '"'
    · subst h1
      rw [show escapeChar '"' = ['\\', '"'] from by decide,
        List.cons_append, List.cons_append, List.nil_append, parseStringBody.eq_def]
      simp only [reduceIte]
      rw [ih rest f hcs]
      rfl
    · by_cases h2 : c = '\\'
      · subst h2
        rw [show escapeChar '\\' = ['\\', '\\'] from by decide,
          List.cons_append, List.cons_append, List.nil_append, parseStringBody.eq_def]
        simp only [reduceIte]
        rw [ih rest f hcs]
        rfl
      · by_cases h3 : c = '\n'
        · subst h3
          rw [show escapeChar '\n' = ['\\', 'n'] from by decide,
            List.cons_append, List.cons_append, List.nil_append, parseStringBody.eq_def]
          simp only [reduceIte]
          rw [ih rest f hcs]
          rfl
        · by_cases h4 : c = '\t'
          · subst h4
            rw [show escapeChar '\t' = ['\\', 't'] from by decide,
              List.cons_append, List.cons_append, List.nil_append, parseStringBody.eq_def]
            simp only [reduceIte]
            rw [ih rest f hcs]
            rfl
          · by_cases h5 : c = '\r'
            · subst h5
              rw [show escapeChar '\r' = ['\\', 'r'] from by decide,
                List.cons_append, List.cons_append, List.nil_append,
                parseStringBody.eq_def]
              simp only [reduceIte]
              rw [ih rest f hcs]
              rfl
            · by_cases h6 : c = '\x08'
              · subst h6
                rw [show escapeChar '\x08' = ['\\', 'b'] from by decide,
                  List.cons_append, List.cons_append, List.nil_append,
                  parseStringBody.eq_def]
                simp only [reduceIte]
                rw [ih rest f hcs]
                rfl
              · by_cases h7 : c = '\x0c'
                · subst h7
                  rw [show escapeChar '\x0c' = ['\\', 'f'] from by decide,
                    List.cons_append, List.cons_append, List.nil_append,
                    parseStringBody.eq_def]
                  simp only [reduceIte]
                  rw [ih rest f hcs]
                  rfl
                · by_cases h8 : c.toNat < 32
                  · have he : escapeChar c =
                        ['\\', 'u', '0', '0', hexDigitChar (c.toNat / 16),
                          hexDigitChar (c.toNat % 16)] := by
                      rw [escapeChar, if_neg h1, if_neg h2, if_neg h3, if_neg h4,
                        if_neg h5, if_neg h6, if_neg h7, if_pos h8]
                    rw [he, List.cons_append, List.cons_append, List.cons_append,
                      List.cons_append, List.cons_append, List.cons_append,
                      List.nil_append, parseStringBody.eq_def]
                    simp only [reduceIte]
                    rw [hexVal_hexDigitChar _ (by omega), hexVal_hexDigitChar _ (by omega)]
                    simp only [show hexVal '0' = some 0 from by decide]
                    rw [if_pos (Or.inl (show ((0 * 16 + 0) * 16 + c.toNat / 16) * 16 +
                      c.toNat % 16 < 0xd800 from by omega))]
                    rw [ih rest f hcs]
                    have hv : ((0 * 16 + 0) * 16 + c.toNat / 16) * 16 + c.toNat % 16 =
                        c.toNat := by omega
                    rw [hv, Char.ofNat_toNat]
                    rfl
                  · have he : escapeChar c = [c] := by
                      rw [escapeChar, if_neg h1, if_neg h2, if_neg h3, if_neg h4,
                        if_neg h5, if_neg h6, if_neg h7, if_neg h8]
                    rw [he, List.cons_append, List.nil_append, parseStringBody.eq_def]
                    dsimp only
                    rw [if_neg h1, if_neg h2, if_neg (by omega)]
                    rw [ih rest f hcs]
                    rfl

mutual

/-- Fuel needed by `parseValue` to parse the dump of a value. -/
def fsize : Json → Nat
  | .null => 1
  | .bool _ => 1
  | .num _ => 1
  | .str s => 2 + s.length
  | .arr [] => 1
  | .arr (x :: xs) => 1 + fsizeElems (x :: xs)
  | .obj [] => 1
  | .obj (f :: fs) => 1 + fsizeFields (f :: fs)

/-- Fuel needed by `parseElems` for a non-empty element list. -/
def fsizeElems : List Json → Nat
  | [] => 0
  | x :: xs => 1 + max (fsize x) (fsizeElems xs)

/-- Fuel needed by `parseFields` for a non-empty field list. -/
def fsizeFields : List (Str × Json) → Nat
  | [] => 0
  | (k, v) :: fs => 1 + max (k.length + 1) (max (fsize v) (fsizeFields fs))

end

theorem fsize_pos (j : Json) : 1 ≤ fsize j := by
  cases j with
  | null => rw [fsize]
  | bool b => rw [fsize]
  | num n => rw [fsize]
  | str s => rw [fsize]; omega
  | arr l =>
    cases l with
    | nil => rw [fsize]
    | cons x xs => rw [fsize]; omega
  | obj l =>
    cases l with
    | nil => rw [fsize]
    | cons f fs => rw [fsize]; omega

theorem dumpsVal_head_class (iOpt : Option Nat) (lvl : Nat) (j : Json) :
    ∃ c t, dumpsVal iOpt lvl j = c :: t ∧ jsonWsChar c = false ∧ c ≠ ']' ∧ c ≠ '}' := by
  cases j with
  | null =>
    refine ⟨'n', ['u', 'l', 'l'], ?_, by decide, by decide, by decide⟩
    rw [dumpsVal]
  | bool b =>
    cases b with
    | true =>
      refine ⟨'t', ['r', 'u', 'e'], ?_, by decide, by decide, by decide⟩
      rw [dumpsVal]
    | false =>
      refine ⟨'f', ['a', 'l', 's', 'e'], ?_, by decide, by decide, by decide⟩
      rw [dumpsVal]
  | num m =>
    cases m with
    | ofNat n =>
      obtain ⟨d, ds, hnd⟩ := natDigits_cons n
      have hd : d.isDigit = true :=
        natDigits_isDigit n d (by rw [hnd]; exact List.mem_cons_self _ _)
      obtain ⟨hws, hrb, hcb, -⟩ := isDigit_class d hd
      refine ⟨d, ds, ?_, hws, hrb, hcb⟩
      rw [dumpsVal, intDigits, hnd]
    | negSucc n =>
      refine ⟨'-', natDigits (n + 1), ?_, by decide, by decide, by decide⟩
      rw [dumpsVal, intDigits]
  | str s =>
    refine ⟨'"', escapeStr s ++ ['"'], ?_, by decide, by decide, by decide⟩
    rw [dumpsVal, List.cons_append]
  | arr l =>
    cases l with
    | nil =>
      refine ⟨'[', [']'], ?_, by decide, by decide, by decide⟩
      rw [dumpsVal]
    | cons x xs =>
      exact ⟨'[', _, by rw [dumpsVal]; exact rfl, by decide, by decide, by decide⟩
  | obj l =>
    cases l with
    | nil =>
      refine ⟨'{', ['}'], ?_, by decide, by decide, by decide⟩
      rw [dumpsVal]
    | cons f fs =>
      exact ⟨'{', _, by rw [dumpsVal]; exact rfl, by decide, by decide, by decide⟩

theorem dumpsElems_head_class (iOpt : Option Nat) (lvl : Nat) (x : Json) (xs : List Json) :
    ∃ c t, dumpsElems iOpt lvl (x :: xs) = c :: t ∧ jsonWsChar c = false ∧
      c ≠ ']' ∧ c ≠ '}' := by
  obtain ⟨c, t, hx, hws, hrb, hcb⟩ := dumpsVal_head_class iOpt lvl x
  cases xs with
  | nil =>
    refine ⟨c, t, ?_, hws, hrb, hcb⟩
    rw [dumpsElems, hx]
  | cons y ys =>
    refine ⟨c, t ++ ',' :: itemPad iOpt lvl ++ dumpsElems iOpt lvl (y :: ys), ?_,
      hws, hrb, hcb⟩
    rw [dumpsElems, hx]
    simp [List.append_assoc]

theorem dumpsFields_cons_head (iOpt : Option Nat) (lvl : Nat) (f : Str × Json)
    (fs : List (Str × Json)) :
    ∃ t, dumpsFields iOpt lvl (f :: fs) = '"' :: t := by
  obtain ⟨k, v⟩ := f
  cases fs with
  | nil => exact ⟨_, by rw [dumpsFields]; exact rfl⟩
  | cons g gs => exact ⟨_, by rw [dumpsFields]; exact rfl⟩

theorem escapeChar_length_pos (c : Char) : 1 ≤ (escapeChar c).length := by
  rw [escapeChar]
  split_ifs <;> simp

theorem escapeStr_length : ∀ (s : Str), s.length ≤ (escapeStr s).length
  | [] => le_refl 0
  | c :: cs => by
    rw [escapeStr, List.length_append, List.length_cons]
    have h1 := escapeChar_length_pos c
    have h2 := escapeStr_length cs
    omega

mutual

theorem fsize_le : ∀ (iOpt : Option Nat) (lvl : Nat) (j : Json),
    fsize j ≤ (dumpsVal iOpt lvl j).length + 1
  | iOpt, lvl, .null => by rw [fsize]; omega
  | iOpt, lvl, .bool b => by rw [fsize]; omega
  | iOpt, lvl, .num n => by rw [fsize]; omega
  | iOpt, lvl, .str s => by
    rw [fsize, dumpsVal]
    have hk := escapeStr_length s
    simp only [List.length_cons, List.length_append]
    omega
  | iOpt, lvl, .arr [] => by rw [fsize]; omega
  | iOpt, lvl, .arr (x :: xs) => by
    rw [fsize, dumpsVal]
    have h := fsizeElems_le iOpt (lvl + 1) (x :: xs)
    simp only [List.length_cons, List.length_append]
    omega
  | iOpt, lvl, .obj [] => by rw [fsize]; omega
  | iOpt, lvl, .obj (f :: fs) => by
    rw [fsize, dumpsVal]
    have h := fsizeFields_le iOpt (lvl + 1) (f :: fs)
    simp only [List.length_cons, List.length_append]
    omega

theorem fsizeElems_le : ∀ (iOpt : Option Nat) (lvl : Nat) (l : List Json),
    fsizeElems l ≤ (dumpsElems iOpt lvl l).length + 2
  | iOpt, lvl, [] => by rw [fsizeElems]; omega
  | iOpt, lvl, [x] => by
    rw [fsizeElems, dumpsElems]
    have h := fsize_le iOpt lvl x
    have h0 : fsizeElems ([] : List Json) = 0 := by rw [fsizeElems]
    omega
  | iOpt, lvl, x :: y :: ys => by
    rw [fsizeElems, dumpsElems]
    have h1 := fsize_le iOpt lvl x
    have h2 := fsizeElems_le iOpt lvl (y :: ys)
    simp only [List.length_append, List.length_cons]
    omega

theorem fsizeFields_le : ∀ (iOpt : Option Nat) (lvl : Nat) (l : List (Str × Json)),
    fsizeFields l ≤ (dumpsFields iOpt lvl l).length + 2
  | iOpt, lvl, [] => by rw [fsizeFields]; omega
  | iOpt, lvl, [(k, v)] => by
    rw [fsizeFields, dumpsFields]
    have h := fsize_le iOpt lvl v
    have h0 : fsizeFields ([] : List (Str × Json)) = 0 := by rw [fsizeFields]
    have hk := escapeStr_length k
    simp only [List.length_cons, List.length_append]
    omega
  | iOpt, lvl, (k, v) :: g :: gs => by
    rw [fsizeFields, dumpsFields]
    have h := fsize_le iOpt lvl v
    have h2 := fsizeFields_le iOpt lvl (g :: gs)
    have hk := escapeStr_length k
    simp only [List.length_cons, List.length_append]
    omega

end

set_option maxHeartbeats 1000000 in
theorem parse_roundtrip : ∀ (fuel : Nat),
    (∀ (iOpt : Option Nat) (lvl : Nat) (j : Json) (pre rest : Str),
      fsize j ≤ fuel → wsOnly pre → restSafe rest →
      parseValue fuel (pre ++ (dumpsVal iOpt lvl j ++ rest)) = some (j, rest)) ∧
    (∀ (iOpt : Option Nat) (lvl : Nat) (l acc : List Json) (pre pad rest : Str),
      l ≠ [] → fsizeElems l ≤ fuel → wsOnly pre → wsOnly pad →
      parseElems fuel (pre ++ (dumpsElems iOpt lvl l ++ (pad ++ ']' :: rest))) acc =
        some (.arr (acc ++ l), rest)) ∧
    (∀ (iOpt : Option Nat) (lvl : Nat) (l acc : List (Str × Json)) (pre pad rest : Str),
      l ≠ [] → fsizeFields l ≤ fuel → wsOnly pre → wsOnly pad →
      parseFields fuel (pre ++ (dumpsFields iOpt lvl l ++ (pad ++ '}' :: rest))) acc =
        some (.obj (acc ++ l), rest)) := by
  intro fuel
  induction fuel with
  | zero =>
    refine ⟨?_, ?_, ?_⟩
    · intro iOpt lvl j pre rest hf _ _
      have := fsize_pos j
      omega
    · intro iOpt lvl l acc pre pad rest hne hf _ _
      rcases l with _ | ⟨x, xs⟩
      · exact absurd rfl hne
      · rw [fsizeElems] at hf
        omega
    · intro iOpt lvl l acc pre pad rest hne hf _ _
      rcases l with _ | ⟨⟨k, v⟩, fs⟩
      · exact absurd rfl hne
      · rw [fsizeFields] at hf
        omega
  | succ f ih =>
    obtain ⟨ihA, ihB, ihC⟩ := ih
    refine ⟨?_, ?_, ?_⟩
    · -- parseValue round-trip
      intro iOpt lvl j pre rest hf hpre hrest
      cases j with
      | null =>
        have hs : skipWs (pre ++ (dumpsVal iOpt lvl .null ++ rest)) =
            'n' :: ('u' :: 'l' :: 'l' :: rest) := by
          rw [skipWs_append_ws pre hpre, dumpsVal,
            show (('n' :: 'u' :: 'l' :: 'l' :: [] : Str) ++ rest) =
              'n' :: 'u' :: 'l' :: 'l' :: rest from rfl]
          exact skipWs_cons_nonws _ _ (by decide)
        rw [parseValue, hs]
        dsimp only
        rw [if_pos rfl, if_pos (show ('u' :: 'l' :: 'l' :: rest).take 3 =
          ['u', 'l', 'l'] from rfl)]
        exact rfl
      | bool b =>
        cases b with
        | true =>
          have hs : skipWs (pre ++ (dumpsVal iOpt lvl (.bool true) ++ rest)) =
              't' :: ('r' :: 'u' :: 'e' :: rest) := by
            rw [skipWs_append_ws pre hpre, dumpsVal,
              show (('t' :: 'r' :: 'u' :: 'e' :: [] : Str) ++ rest) =
                't' :: 'r' :: 'u' :: 'e' :: rest from rfl]
            exact skipWs_cons_nonws _ _ (by decide)
          rw [parseValue, hs]
          dsimp only
          rw [if_neg (by decide), if_pos rfl,
            if_pos (show ('r' :: 'u' :: 'e' :: rest).take 3 = ['r', 'u', 'e'] from rfl)]
          exact rfl
        | false =>
          have hs : skipWs (pre ++ (dumpsVal iOpt lvl (.bool false) ++ rest)) =
              'f' :: ('a' :: 'l' :: 's' :: 'e' :: rest) := by
            rw [skipWs_append_ws pre hpre, dumpsVal,
              show (('f' :: 'a' :: 'l' :: 's' :: 'e' :: [] : Str) ++ rest) =
                'f' :: 'a' :: 'l' :: 's' :: 'e' :: rest from rfl]
            exact skipWs_cons_nonws _ _ (by decide)
          rw [parseValue, hs]
          dsimp only
          rw [if_neg (by decide), if_neg (by decide), if_pos rfl,
            if_pos (show ('a' :: 'l' :: 's' :: 'e' :: rest).take 4 =
              ['a', 'l', 's', 'e'] from rfl)]
          exact rfl
      | num m =>
        cases m with
        | ofNat n =>
          obtain ⟨d, ds, hnd⟩ := natDigits_cons n
          have hd : d.isDigit = true :=
            natDigits_isDigit n d (by rw [hnd]; exact List.mem_cons_self _ _)
          obtain ⟨hws, -, -, hn1, hn2, hn3, hn4, hn5, hn6, hn7⟩ := isDigit_class d hd
          have hs : skipWs (pre ++ (dumpsVal iOpt lvl (.num (.ofNat n)) ++ rest)) =
              d :: (ds ++ rest) := by
            rw [skipWs_append_ws pre hpre, dumpsVal, intDigits, hnd, List.cons_append]
            exact skipWs_cons_nonws _ _ hws
          rw [parseValue, hs]
          dsimp only
          rw [if_neg hn1, if_neg hn2, if_neg hn3, if_neg hn4, if_neg hn5, if_neg hn6,
            if_neg hn7, if_pos hd,
            show (d :: (ds ++ rest)) = ((d :: ds) ++ rest) from rfl, ← hnd,
            parseIntRest_natDigits false n rest hrest]
          exact rfl
        | negSucc n =>
          have hs : skipWs (pre ++ (dumpsVal iOpt lvl (.num (.negSucc n)) ++ rest)) =
              '-' :: (natDigits (n + 1) ++ rest) := by
            rw [skipWs_append_ws pre hpre, dumpsVal, intDigits, List.cons_append]
            exact skipWs_cons_nonws _ _ (by decide)
          rw [parseValue, hs]
          dsimp only
          rw [if_neg (by decide), if_neg (by decide), if_neg (by decide),
            if_neg (by decide), if_neg (by decide), if_neg (by decide), if_pos rfl,
            parseIntRest_natDigits true (n + 1) rest hrest]
          have hval : (if (true : Bool) then -((n + 1 : Nat) : Int)
              else ((n + 1 : Nat) : Int)) = Int.negSucc n := by
            rw [if_pos rfl, Int.negSucc_eq]
            push_cast
            ring
          rw [hval]
      | str s =>
        have hs : skipWs (pre ++ (dumpsVal iOpt lvl (.str s) ++ rest)) =
            '"' :: (escapeStr s ++ '"' :: rest) := by
          rw [skipWs_append_ws pre hpre, dumpsVal]
          simp only [List.cons_append, List.append_assoc, List.singleton_append]
          exact skipWs_cons_nonws _ _ (by decide)
        rw [parseValue, hs]
        dsimp only
        rw [if_neg (by decide), if_neg (by decide), if_neg (by decide), if_pos rfl,
          parseStringBody_escape s rest f (by rw [fsize] at hf; omega)]
        exact rfl
      | arr l =>
        cases l with
        | nil =>
          have hs : skipWs (pre ++ (dumpsVal iOpt lvl (.arr []) ++ rest)) =
              '[' :: (']' :: rest) := by
            rw [skipWs_append_ws pre hpre, dumpsVal,
              show ((['[', ']'] : Str) ++ rest) = '[' :: ']' :: rest from rfl]
            exact skipWs_cons_nonws _ _ (by decide)
          rw [parseValue, hs]
          dsimp only
          rw [if_neg (by decide), if_neg (by decide), if_neg (by decide),
            if_neg (by decide), if_pos rfl, skipWs_cons_nonws ']' rest (by decide)]
          rw [if_pos (show (']' :: rest).head? = some ']' from rfl)]
          exact rfl
        | cons x xs =>
          obtain ⟨c0, t0, he, hws0, hrb0, -⟩ := dumpsElems_head_class iOpt (lvl + 1) x xs
          have hs : skipWs (pre ++ (dumpsVal iOpt lvl (.arr (x :: xs)) ++ rest)) =
              '[' :: (openPad iOpt (lvl + 1) ++ (dumpsElems iOpt (lvl + 1) (x :: xs) ++
                (closePad iOpt lvl ++ ']' :: rest))) := by
            rw [skipWs_append_ws pre hpre, dumpsVal]
            simp only [List.cons_append, List.append_assoc, List.singleton_append]
            exact skipWs_cons_nonws _ _ (by decide)
          rw [parseValue, hs]
          dsimp only
          rw [if_neg (by decide), if_neg (by decide), if_neg (by decide),
            if_neg (by decide), if_pos rfl]
          have hr : skipWs (openPad iOpt (lvl + 1) ++ (dumpsElems iOpt (lvl + 1) (x :: xs) ++
              (closePad iOpt lvl ++ ']' :: rest))) =
              c0 :: (t0 ++ (closePad iOpt lvl ++ ']' :: rest)) := by
            rw [skipWs_append_ws _ (wsOnly_openPad iOpt (lvl + 1)), he, List.cons_append]
            exact skipWs_cons_nonws _ _ hws0
          rw [hr, if_neg (by simp [hrb0])]
          exact ihB iOpt (lvl + 1) (x :: xs) [] (openPad iOpt (lvl + 1)) (closePad iOpt lvl)
            rest (List.cons_ne_nil x xs) (by rw [fsize] at hf; omega)
            (wsOnly_openPad _ _) (wsOnly_closePad _ _)
      | obj l =>
        cases l with
        | nil =>
          have hs : skipWs (pre ++ (dumpsVal iOpt lvl (.obj []) ++ rest)) =
              '{' :: ('}' :: rest) := by
            rw [skipWs_append_ws pre hpre, dumpsVal,
              show ((['{', '}'] : Str) ++ rest) = '{' :: '}' :: rest from rfl]
            exact skipWs_cons_nonws _ _ (by decide)
          rw [parseValue, hs]
          dsimp only
          rw [if_neg (by decide), if_neg (by decide), if_neg (by decide),
            if_neg (by decide), if_neg (by decide), if_pos rfl,
            skipWs_cons_nonws '}' rest (by decide)]
          rw [if_pos (show ('}' :: rest).head? = some '}' from rfl)]
          exact rfl
        | cons g gs =>
          obtain ⟨t0, he⟩ := dumpsFields_cons_head iOpt (lvl + 1) g gs
          have hs : skipWs (pre ++ (dumpsVal iOpt lvl (.obj (g :: gs)) ++ rest)) =
              '{' :: (openPad iOpt (lvl + 1) ++ (dumpsFields iOpt (lvl + 1) (g :: gs) ++
                (closePad iOpt lvl ++ '}' :: rest))) := by
            rw [skipWs_append_ws pre hpre, dumpsVal]
            simp only [List.cons_append, List.append_assoc, List.singleton_append]
            exact skipWs_cons_nonws _ _ (by decide)
          rw [parseValue, hs]
          dsimp only
          rw [if_neg (by decide), if_neg (by decide), if_neg (by decide),
            if_neg (by decide), if_neg (by decide), if_pos rfl]
          have hr : skipWs (openPad iOpt (lvl + 1) ++ (dumpsFields iOpt (lvl + 1) (g :: gs) ++
              (closePad iOpt lvl ++ '}' :: rest))) =
              '"' :: (t0 ++ (closePad iOpt lvl ++ '}' :: rest)) := by
            rw [skipWs_append_ws _ (wsOnly_openPad iOpt (lvl + 1)), he, List.cons_append]
            exact skipWs_cons_nonws _ _ (by decide)
          rw [hr, if_neg (by simp)]
          exact ihC iOpt (lvl + 1) (g :: gs) [] (openPad iOpt (lvl + 1)) (closePad iOpt lvl)
            rest (List.cons_ne_nil g gs) (by rw [fsize] at hf; omega)
            (wsOnly_openPad _ _) (wsOnly_closePad _ _)
    · -- parseElems round-trip
      intro iOpt lvl l acc pre pad rest hne hf hpre hpad
      rcases l with _ | ⟨x, xs⟩
      · exact absurd rfl hne
      cases xs with
      | nil =>
        rw [parseElems, dumpsElems]
        have h0 : fsizeElems ([] : List Json) = 0 := by rw [fsizeElems]
        have hb : fsize x ≤ f := by rw [fsizeElems] at hf; omega
        have hv := ihA iOpt lvl x pre (pad ++ ']' :: rest) hb hpre
          (restSafe_pad pad hpad ']' rest (by refine ⟨by decide, by decide, by decide, by decide⟩))
        rw [hv]
        dsimp only
        rw [skipWs_append_ws pad hpad, skipWs_cons_nonws ']' rest (by decide)]
        dsimp only
        rw [if_neg (by decide), if_pos rfl]
      | cons y ys =>
        rw [parseElems, dumpsElems]
        simp only [List.cons_append, List.append_assoc]
        have hb : fsize x ≤ f := by rw [fsizeElems] at hf; omega
        have hb2 : fsizeElems (y :: ys) ≤ f := by rw [fsizeElems] at hf; omega
        have hsafe : restSafe (',' :: (itemPad iOpt lvl ++ (dumpsElems iOpt lvl (y :: ys) ++
            (pad ++ ']' :: rest)))) := by
          intro c hc
          simp only [List.head?_cons, Option.some_inj] at hc
          subst hc
          exact ⟨by decide, by decide, by decide, by decide⟩
        have hv : parseValue f (pre ++ (dumpsVal iOpt lvl x ++ (',' ::
            (itemPad iOpt lvl ++ (dumpsElems iOpt lvl (y :: ys) ++ (pad ++ ']' :: rest)))))) =
            some (x, ',' :: (itemPad iOpt lvl ++ (dumpsElems iOpt lvl (y :: ys) ++
              (pad ++ ']' :: rest)))) :=
          ihA iOpt lvl x pre _ hb hpre hsafe
        rw [hv]
        dsimp only
        rw [skipWs_cons_nonws ',' _ (by decide)]
        dsimp only
        rw [if_pos rfl]
        rw [show acc ++ x :: y :: ys = (acc ++ [x]) ++ (y :: ys) from by simp]
        exact ihB iOpt lvl (y :: ys) (acc ++ [x]) (itemPad iOpt lvl) pad rest
          (List.cons_ne_nil y ys) hb2 (wsOnly_itemPad _ _) hpad
    · -- parseFields round-trip
      intro iOpt lvl l acc pre pad rest hne hf hpre hpad
      rcases l with _ | ⟨⟨k, v⟩, fs⟩
      · exact absurd rfl hne
      have h0 : fsizeFields ([] : List (Str × Json)) = 0 := by rw [fsizeFields]
      have hbk : k.length + 1 ≤ f := by rw [fsizeFields] at hf; omega
      have hbv : fsize v ≤ f := by rw [fsizeFields] at hf; omega
      cases fs with
      | nil =>
        rw [parseFields, dumpsFields]
        have hs : skipWs (pre ++ ((('"' :: escapeStr k) ++
            ('"' :: ':' :: ' ' :: dumpsVal iOpt lvl v)) ++ (pad ++ '}' :: rest))) =
            '"' :: (escapeStr k ++ '"' :: (':' :: (' ' :: (dumpsVal iOpt lvl v ++
              (pad ++ '}' :: rest))))) := by
          rw [skipWs_append_ws pre hpre]
          simp only [List.cons_append, List.append_assoc]
          exact skipWs_cons_nonws _ _ (by decide)
        rw [hs]
        dsimp only
        rw [if_pos rfl,
          parseStringBody_escape k (':' :: (' ' :: (dumpsVal iOpt lvl v ++
            (pad ++ '}' :: rest)))) f hbk]
        dsimp only
        rw [skipWs_cons_nonws ':' _ (by decide)]
        dsimp only
        rw [if_pos rfl]
        have hv : parseValue f (' ' :: (dumpsVal iOpt lvl v ++ (pad ++ '}' :: rest))) =
            some (v, pad ++ '}' :: rest) :=
          ihA iOpt lvl v [' '] (pad ++ '}' :: rest) hbv
            (by intro c hc; simp only [List.mem_singleton] at hc; subst hc; decide)
            (restSafe_pad pad hpad '}' rest ⟨by decide, by decide, by decide, by decide⟩)
        rw [hv]
        dsimp only
        rw [skipWs_append_ws pad hpad, skipWs_cons_nonws '}' rest (by decide)]
        dsimp only
        rw [if_neg (by decide), if_pos rfl]
      | cons g gs =>
        rw [parseFields, dumpsFields]
        have hbf : fsizeFields (g :: gs) ≤ f := by rw [fsizeFields] at hf; omega
        rw [skipWs_append_ws pre hpre]
        simp only [List.cons_append, List.append_assoc]
        rw [skipWs_cons_nonws '"' _ (by decide)]
        dsimp only
        rw [if_pos rfl,
          parseStringBody_escape k (':' :: (' ' :: (dumpsVal iOpt lvl v ++
            (',' :: (itemPad iOpt lvl ++ (dumpsFields iOpt lvl (g :: gs) ++
              (pad ++ '}' :: rest))))))) f hbk]
        dsimp only
        rw [skipWs_cons_nonws ':' _ (by decide)]
        dsimp only
        rw [if_pos rfl]
        have hsafe : restSafe (',' :: (itemPad iOpt lvl ++ (dumpsFields iOpt lvl (g :: gs) ++
            (pad ++ '}' :: rest)))) := by
          intro c hc
          simp only [List.head?_cons, Option.some_inj] at hc
          subst hc
          exact ⟨by decide, by decide, by decide, by decide⟩
        have hv : parseValue f (' ' :: (dumpsVal iOpt lvl v ++ (',' ::
            (itemPad iOpt lvl ++ (dumpsFields iOpt lvl (g :: gs) ++ (pad ++ '}' :: rest)))))) =
            some (v, ',' :: (itemPad iOpt lvl ++ (dumpsFields iOpt lvl (g :: gs) ++
              (pad ++ '}' :: rest)))) :=
          ihA iOpt lvl v [' '] _ hbv
            (by intro c hc; simp only [List.mem_singleton] at hc; subst hc; decide)
            hsafe
        rw [hv]
        dsimp only
        rw [skipWs_cons_nonws ',' _ (by decide)]
        dsimp only
        rw [if_pos rfl]
        rw [show acc ++ (k, v) :: g :: gs = (acc ++ [(k, v)]) ++ (g :: gs) from by simp]
        exact ihC iOpt lvl (g :: gs) (acc ++ [(k, v)]) (itemPad iOpt lvl) pad rest
          (List.cons_ne_nil g gs) hbf (wsOnly_itemPad _ _) hpad

theorem json_loads_dumps (iOpt : Option Nat) (j : Json) :
    json_loads (dumpsVal iOpt 0 j) = some j := by
  rw [json_loads]
  have hA := (parse_roundtrip ((dumpsVal iOpt 0 j).length + 1)).1 iOpt 0 j [] []
    (le_trans (fsize_le iOpt 0 j) (by omega)) wsOnly_nil restSafe_nil
  rw [List.nil_append, List.append_nil] at hA
  rw [hA]
  exact rfl

theorem json_loads_json_dumps (j : Json) : json_loads (json_dumps j) = some j := by
  rw [json_dumps]
  exact json_loads_dumps none j

theorem json_loads_dumpsIndent (j : Json) : json_loads (dumpsIndent j) = some j := by
  rw [dumpsIndent]
  exact json_loads_dumps (some 2) j

/-! ### Claim C1: builder → verifier round trip -/

/-- Apply a sequence of `add_text_attachment` calls in order. -/
def applyAtts (b : EvidenceBundle) : List (Str × Str) → EvidenceBundle
  | [] => b
  | a :: as => applyAtts (b.add_text_attachment a.1 a.2) as

theorem applyEvents_build_meta : ∀ (cs : List EventCall) (b : EvidenceBundle),
    (applyEvents b cs).build_meta = b.build_meta
  | [], b => rfl
  | c :: cs, b => by
    unfold applyEvents
    exact applyEvents_build_meta cs _

theorem applyAtts_state : ∀ (atts : List (Str × Str)) (b : EvidenceBundle),
    (applyAtts b atts).events = b.events ∧ (applyAtts b atts).build_meta = b.build_meta
  | [], b => ⟨rfl, rfl⟩
  | a :: as, b => by
    unfold applyAtts
    exact applyAtts_state as _

theorem dictSet_keys (P : Str → Prop) (d : List (Str × Str)) (k v : Str)
    (hd : ∀ p ∈ d, P p.1) (hk : P k) : ∀ p ∈ dictSet d k v, P p.1 := by
  intro p hp
  unfold dictSet at hp
  split_ifs at hp with h
  · rw [List.mem_map] at hp
    obtain ⟨q, hq, hpq⟩ := hp
    by_cases hqk : q.1 == k
    · rw [if_pos hqk] at hpq
      subst hpq
      exact hk
    · rw [if_neg hqk] at hpq
      subst hpq
      exact hd q hq
  · rw [List.mem_append] at hp
    rcases hp with h1 | h1
    · exact hd p h1
    · simp only [List.mem_singleton] at h1
      subst h1
      exact hk

theorem applyAtts_keys (P : Str → Prop) : ∀ (atts : List (Str × Str)) (b : EvidenceBundle),
    (∀ p ∈ b.attachments, P p.1) → (∀ a ∈ atts, P a.1) →
    ∀ p ∈ (applyAtts b atts).attachments, P p.1
  | [], _, hb, _ => hb
  | a :: as, b, hb, ha => by
    unfold applyAtts
    refine applyAtts_keys P as _ ?_ (fun x hx => ha x (List.mem_cons_of_mem _ hx))
    exact fun p hp => dictSet_keys P b.attachments a.1 a.2 hb (ha a (List.mem_cons_self _ _)) p hp

theorem lastAssoc_eq_none {β : Type} : ∀ (fs : List (Str × β)) (key : Str),
    (∀ p ∈ fs, p.1 ≠ key) → lastAssoc fs key = none
  | [], _, _ => rfl
  | (k, v) :: rest, key, h => by
    rw [lastAssoc, lastAssoc_eq_none rest key (fun p hp => h p (List.mem_cons_of_mem _ hp))]
    dsimp only
    exact if_neg (h (k, v) (List.mem_cons_self _ _))

theorem zread_builder_meta (b : EvidenceBundle)
    (hatts : ∀ p ∈ b.attachments, p.1 ≠ "meta.json".data) :
    b.write_zip.zread "meta.json".data = some (dumpsIndent b.build_meta) := by
  unfold EvidenceBundle.write_zip ZipArchive.zread
  dsimp only
  rw [lastAssoc, lastAssoc, lastAssoc_eq_none b.attachments _ hatts]
  dsimp only
  rw [if_neg (by decide)]
  exact if_pos rfl

theorem zread_builder_aal (b : EvidenceBundle)
    (hatts : ∀ p ∈ b.attachments, p.1 ≠ "aal.ndjson".data) :
    b.write_zip.zread "aal.ndjson".data = some (aalNdjson b.events) := by
  unfold EvidenceBundle.write_zip ZipArchive.zread
  dsimp only
  rw [lastAssoc, lastAssoc, lastAssoc_eq_none b.attachments _ hatts]
  dsimp only
  rw [if_pos rfl]

theorem build_meta_get_version (b : EvidenceBundle) :
    pyGetItem b.build_meta "version".data = .ok (.str b.version) := by
  rcases hinc : b.incident_summary with _ | si <;> rcases htg : b.tags with _ | ts <;>
    rcases hdis : b.disclaimer with _ | ds <;>
    · unfold pyGetItem EvidenceBundle.build_meta
      rw [hinc, htg, hdis]
      rfl

theorem build_meta_get_timestamp (b : EvidenceBundle) :
    pyGetItem b.build_meta "timestamp".data = .ok (.str b.created_at) := by
  rcases hinc : b.incident_summary with _ | si <;> rcases htg : b.tags with _ | ts <;>
    rcases hdis : b.disclaimer with _ | ds <;>
    · unfold pyGetItem EvidenceBundle.build_meta
      rw [hinc, htg, hdis]
      rfl

theorem build_meta_get_sysinfo (b : EvidenceBundle) :
    pyGetItem b.build_meta "system_info".data = .ok (Json.obj
      [("name".data, Json.str b.system_name),
       ("version".data, Json.str b.system_version),
       ("operator".data, Json.str b.operator)]) := by
  rcases hinc : b.incident_summary with _ | si <;> rcases htg : b.tags with _ | ts <;>
    rcases hdis : b.disclaimer with _ | ds <;>
    · unfold pyGetItem EvidenceBundle.build_meta
      rw [hinc, htg, hdis]
      rfl

theorem build_meta_no_hash (b : EvidenceBundle) :
    pyContains b.build_meta "bundle_sha256".data = .ok false := by
  rcases hinc : b.incident_summary with _ | si <;> rcases htg : b.tags with _ | ts <;>
    rcases hdis : b.disclaimer with _ | ds <;>
    · unfold pyContains EvidenceBundle.build_meta
      rw [hinc, htg, hdis]
      rfl

theorem iso_now_contains_T (t : DateTime) : (iso_now t).contains 'T' = true := by
  have h : 'T' ∈ iso_now t := by unfold iso_now; simp
  simpa using h

theorem metaVersionCheck_builder (b : EvidenceBundle) (r : CheckResult)
    (hver : b.version = VALID_EVB_VERSION) :
    metaVersionCheck b.build_meta r = .ok r := by
  unfold metaVersionCheck
  rw [show pyContains b.build_meta "version".data = .ok true from rfl, exceptBind_ok]
  dsimp only
  rw [if_pos rfl, build_meta_get_version b, exceptBind_ok, hver, if_neg (by simp)]
  rfl

theorem metaTimestampCheck_builder (b : EvidenceBundle) (r : CheckResult)
    (hT : b.created_at.contains 'T' = true) :
    metaTimestampCheck b.build_meta r = .ok r := by
  unfold metaTimestampCheck
  rw [show pyContains b.build_meta "timestamp".data = .ok true from rfl, exceptBind_ok]
  dsimp only
  rw [if_pos rfl, build_meta_get_timestamp b, exceptBind_ok]
  dsimp only
  rw [if_neg (not_not_intro hT)]
  rfl

theorem metaSysInfoCheck_builder (b : EvidenceBundle) (r : CheckResult) :
    metaSysInfoCheck b.build_meta r = .ok r := by
  unfold metaSysInfoCheck
  rw [show pyContains b.build_meta "system_info".data = .ok true from rfl, exceptBind_ok]
  dsimp only
  rw [if_pos rfl, build_meta_get_sysinfo b, exceptBind_ok]
  dsimp only
  rw [pyMissingFields_obj, exceptBind_ok]
  rw [if_neg (fun hcon => hcon rfl)]
  rfl

theorem verify_meta_builder (z : ZipArchive) (b : EvidenceBundle)
    (hname : z.namelist.contains "meta.json".data = true)
    (hread : z.zread "meta.json".data = some (dumpsIndent b.build_meta))
    (hver : b.version = VALID_EVB_VERSION)
    (hT : b.created_at.contains 'T' = true) :
    verify_meta z = .ok ⟨4, [], []⟩ := by
  unfold verify_meta
  simp only [hname, not_true_eq_false, if_false, ite_false, Bool.true_eq_false, hread]
  rw [json_loads_dumpsIndent]
  dsimp only
  rw [show pyMissingFields REQUIRED_META_FIELDS b.build_meta = .ok [] from rfl, exceptBind_ok]
  rw [if_neg (by simp), metaVersionCheck_builder b _ hver, exceptBind_ok,
    metaTimestampCheck_builder b _ hT, exceptBind_ok,
    metaSysInfoCheck_builder b _, exceptBind_ok]
  rfl

theorem filter_splitNl_aalNdjson (evs : List Json)
    (hobj : ∀ e ∈ evs, ∃ f fs, e = Json.obj (f :: fs)) :
    (splitNl (aalNdjson evs)).filter pyNonBlank = evs.map json_dumps := by
  rw [splitNl_aalNdjson, List.filter_append]
  have h1 : List.filter pyNonBlank (evs.map json_dumps) = evs.map json_dumps := by
    rw [List.filter_eq_self]
    intro a ha
    rw [List.mem_map] at ha
    obtain ⟨e, he, rfl⟩ := ha
    obtain ⟨f, fs, rfl⟩ := hobj e he
    exact pyNonBlank_dumps_obj f fs
  rw [h1]
  simp [pyNonBlank]

theorem verify_aal_all_obj (z : ZipArchive) (raw : Str)
    (hname : z.namelist.contains "aal.ndjson".data = true)
    (hread : z.zread "aal.ndjson".data = some raw)
    (hne : (splitNl raw).filter pyNonBlank ≠ [])
    (hall : ∀ l ∈ (splitNl raw).filter pyNonBlank, ∃ fs, json_loads l = some (.obj fs)) :
    ∃ a, verify_aal z = .ok a ∧ a.score = 4 ∧ a.errors = [] := by
  unfold verify_aal
  simp only [hname, not_true_eq_false, if_false, ite_false, Bool.true_eq_false, hread]
  rw [if_neg hne]
  obtain ⟨st2, h2, hec, herr, hsc⟩ := aalScanLines_obj_ok _ ⟨⟨4, [], []⟩, 0, 0⟩ 1 hall
  rw [h2, exceptBind_ok]
  have hec0 : st2.error_count = 0 := hec
  rw [if_neg (show ¬ 3 < st2.error_count from by omega)]
  split_ifs with hw
  · exact ⟨_, rfl, by simp [CheckResult.add_warning, hsc], by simp [CheckResult.add_warning, herr]⟩
  · exact ⟨_, rfl, by simp [hsc], by simp [herr]⟩

theorem verify_hash_none_builder (z : ZipArchive) (b : EvidenceBundle)
    (digest : Except Unit Str)
    (hread : z.zread "meta.json".data = some (dumpsIndent b.build_meta)) :
    verify_bundle_hash z digest = .ok none := by
  unfold verify_bundle_hash
  rw [hread]
  dsimp only
  rw [json_loads_dumpsIndent]
  dsimp only
  rw [build_meta_no_hash b, exceptBind_ok]
  rw [if_pos (by simp)]
  rfl

theorem applyEvents_meta_fields : ∀ (cs : List EventCall) (b : EvidenceBundle),
    (applyEvents b cs).version = b.version ∧ (applyEvents b cs).created_at = b.created_at
  | [], b => ⟨rfl, rfl⟩
  | c :: cs, b => by
    unfold applyEvents
    exact applyEvents_meta_fields cs _

theorem applyAtts_meta_fields : ∀ (atts : List (Str × Str)) (b : EvidenceBundle),
    (applyAtts b atts).version = b.version ∧ (applyAtts b atts).created_at = b.created_at
  | [], b => ⟨rfl, rfl⟩
  | a :: as, b => by
    unfold applyAtts
    exact applyAtts_meta_fields as _

/-- A builder-state bundle whose attachments avoid the reserved names,
whose version is the default `0.1`, whose `created_at` is ISO-like and
whose events are all objects verifies to a full-score PASS. -/
theorem verify_bundle_builder (B : EvidenceBundle) (digest : Except Unit Str)
    (hkeys : ∀ p ∈ B.attachments, p.1 ≠ "meta.json".data ∧ p.1 ≠ "aal.ndjson".data)
    (hver : B.version = VALID_EVB_VERSION)
    (hT : B.created_at.contains 'T' = true)
    (hne : B.events ≠ [])
    (hobj : ∀ e ∈ B.events, ∃ f fs, e = Json.obj (f :: fs)) :
    (verify_bundle (.archive B.write_zip) digest).meta = ⟨4, [], []⟩ ∧
    (verify_bundle (.archive B.write_zip) digest).aal.score = 4 ∧
    (verify_bundle (.archive B.write_zip) digest).aal.errors = [] ∧
    (verify_bundle (.archive B.write_zip) digest).hash_check = none ∧
    verdictCode (verify_bundle (.archive B.write_zip) digest) = 0 := by
  have hzmeta := zread_builder_meta B (fun p hp => (hkeys p hp).1)
  have hzaal := zread_builder_aal B (fun p hp => (hkeys p hp).2)
  have hm := verify_meta_builder B.write_zip B rfl hzmeta hver hT
  have hfilter := filter_splitNl_aalNdjson B.events hobj
  have hlne : (splitNl (aalNdjson B.events)).filter pyNonBlank ≠ [] := by
    rw [hfilter]
    intro hcon
    exact hne (by simpa using hcon)
  have hall : ∀ l ∈ (splitNl (aalNdjson B.events)).filter pyNonBlank,
      ∃ fs, json_loads l = some (.obj fs) := by
    rw [hfilter]
    intro l hl
    rw [List.mem_map] at hl
    obtain ⟨e, he, rfl⟩ := hl
    obtain ⟨f, fs, hfs⟩ := hobj e he
    exact ⟨f :: fs, by rw [hfs]; exact json_loads_json_dumps _⟩
  obtain ⟨a, ha, hasc, haerr⟩ := verify_aal_all_obj B.write_zip (aalNdjson B.events)
    rfl hzaal hlne hall
  have hh := verify_hash_none_builder B.write_zip B digest hzmeta
  have hvb : verify_bundle (.archive B.write_zip) digest =
      ⟨⟨4, [], []⟩, a, verify_optional B.write_zip, none⟩ := by
    have hstep : verify_bundle (.archive B.write_zip) digest =
        (match (verify_meta B.write_zip >>= fun meta =>
            verify_aal B.write_zip >>= fun aal =>
            verify_bundle_hash B.write_zip digest >>= fun hash_check =>
            pure (VerificationResult.mk meta aal (verify_optional B.write_zip) hash_check) :
            Except Unit VerificationResult) with
          | .ok r => r
          | .error _ => failResult .unexpectedError) := rfl
    rw [hstep, hm, exceptBind_ok, ha, exceptBind_ok, hh, exceptBind_ok]
    rfl
  rw [hvb]
  have ho : (verify_optional B.write_zip).errors = [] ∧
      0 ≤ (verify_optional B.write_zip).score := by
    rcases verify_optional_cases B.write_zip with h | h | h | h <;> rw [h] <;>
      exact ⟨rfl, by norm_num⟩
  refine ⟨rfl, hasc, haerr, rfl, ?_⟩
  have hval : (VerificationResult.mk ⟨4, [], []⟩ a (verify_optional B.write_zip) none).is_valid := by
    constructor
    · unfold VerificationResult.total_score
      dsimp only
      rw [hasc]
      have h2 := ho.2
      omega
    · unfold VerificationResult.all_errors
      dsimp only
      rw [haerr, ho.1]
      rfl
  unfold verdictCode
  rw [if_pos hval]

/-- C1 (amended): a bundle built by the Builder with `N ≥ 1` appended
entries and `M` text attachments none of which reuses the reserved
archive names `meta.json` / `aal.ndjson`, keeping the default format
version `0.1`, always verifies to a PASS verdict with the meta and aal
components at their full score of 4 each and no hash component (the
builder never declares `bundle_sha256`). -/
theorem C1_roundtrip_pass (id sn sv op : Str) (inc : Option Str) (tg : Option (List Str))
    (dis : Option Str) (dt : DateTime) (calls : List EventCall) (atts : List (Str × Str))
    (digest : Except Unit Str) (hne : calls ≠ [])
    (hatts : ∀ p ∈ atts, p.1 ≠ "meta.json".data ∧ p.1 ≠ "aal.ndjson".data) :
    (verify_bundle (.archive (applyAtts (applyEvents
        (EvidenceBundle.make id sn sv op VALID_EVB_VERSION inc tg dis dt) calls)
        atts).write_zip) digest).meta = ⟨4, [], []⟩ ∧
    (verify_bundle (.archive (applyAtts (applyEvents
        (EvidenceBundle.make id sn sv op VALID_EVB_VERSION inc tg dis dt) calls)
        atts).write_zip) digest).aal.score = 4 ∧
    (verify_bundle (.archive (applyAtts (applyEvents
        (EvidenceBundle.make id sn sv op VALID_EVB_VERSION inc tg dis dt) calls)
        atts).write_zip) digest).aal.errors = [] ∧
    (verify_bundle (.archive (applyAtts (applyEvents
        (EvidenceBundle.make id sn sv op VALID_EVB_VERSION inc tg dis dt) calls)
        atts).write_zip) digest).hash_check = none ∧
    verdictCode (verify_bundle (.archive (applyAtts (applyEvents
        (EvidenceBundle.make id sn sv op VALID_EVB_VERSION inc tg dis dt) calls)
        atts).write_zip) digest) = 0 := by
  apply verify_bundle_builder
  · intro p hp
    refine applyAtts_keys (fun k => k ≠ "meta.json".data ∧ k ≠ "aal.ndjson".data)
      atts _ ?_ hatts p hp
    intro q hq
    rw [(applyEvents_events calls _).2] at hq
    exact absurd hq (List.not_mem_nil q)
  · rw [(applyAtts_meta_fields atts _).1, (applyEvents_meta_fields calls _).1]
    rfl
  · rw [(applyAtts_meta_fields atts _).2, (applyEvents_meta_fields calls _).2]
    exact iso_now_contains_T dt
  · rw [(applyAtts_state atts _).1, (applyEvents_events calls _).1,
      show (EvidenceBundle.make id sn sv op VALID_EVB_VERSION inc tg dis dt).events = []
        from rfl, List.nil_append]
    simp [hne]
  · rw [(applyAtts_state atts _).1, (applyEvents_events calls _).1,
      show (EvidenceBundle.make id sn sv op VALID_EVB_VERSION inc tg dis dt).events = []
        from rfl, List.nil_append]
    intro e he
    rw [List.mem_map] at he
    obtain ⟨c, -, rfl⟩ := he
    exact eventJson_isObjCons c

theorem verify_aal_empty (z : ZipArchive) (raw : Str)
    (hname : z.namelist.contains "aal.ndjson".data = true)
    (hread : z.zread "aal.ndjson".data = some raw)
    (hempty : (splitNl raw).filter pyNonBlank = []) :
    verify_aal z = .ok ⟨2, [.aalEmpty], []⟩ := by
  unfold verify_aal
  simp only [hname, not_true_eq_false, if_false, ite_false, Bool.true_eq_false, hread]
  rw [if_pos hempty]
  rfl

/-- Builder bundle with zero events and zero attachments. -/
def bC1 : EvidenceBundle :=
  EvidenceBundle.make "b".data "s".data "v".data "o".data VALID_EVB_VERSION none none none dt0

/-- A builder-state bundle with no events (and well-named attachments,
default version, ISO timestamp) verifies to meta 4, aal 2 (empty-log
warning) and no hash component. -/
theorem verify_bundle_builder_empty (B : EvidenceBundle) (digest : Except Unit Str)
    (hkeys : ∀ p ∈ B.attachments, p.1 ≠ "meta.json".data ∧ p.1 ≠ "aal.ndjson".data)
    (hver : B.version = VALID_EVB_VERSION)
    (hT : B.created_at.contains 'T' = true)
    (hev : B.events = []) :
    verify_bundle (.archive B.write_zip) digest =
      ⟨⟨4, [], []⟩, ⟨2, [.aalEmpty], []⟩, verify_optional B.write_zip, none⟩ := by
  have hzmeta := zread_builder_meta B (fun p hp => (hkeys p hp).1)
  have hzaal := zread_builder_aal B (fun p hp => (hkeys p hp).2)
  have hm := verify_meta_builder B.write_zip B rfl hzmeta hver hT
  have ha : verify_aal B.write_zip = .ok ⟨2, [.aalEmpty], []⟩ := by
    refine verify_aal_empty B.write_zip (aalNdjson B.events) rfl hzaal ?_
    rw [hev]
    rfl
  have hh := verify_hash_none_builder B.write_zip B digest hzmeta
  have hstep : verify_bundle (.archive B.write_zip) digest =
      (match (verify_meta B.write_zip >>= fun meta =>
          verify_aal B.write_zip >>= fun aal =>
          verify_bundle_hash B.write_zip digest >>= fun hash_check =>
          pure (VerificationResult.mk meta aal (verify_optional B.write_zip) hash_check) :
          Except Unit VerificationResult) with
        | .ok r => r
        | .error _ => failResult .unexpectedError) := rfl
  rw [hstep, hm, exceptBind_ok, ha, exceptBind_ok, hh, exceptBind_ok]
  rfl

/-- C1 (counterexample): a builder bundle with zero appended entries does
NOT verify to PASS — its (present but empty) aal.ndjson costs the aal
component 2 points, the total score is 6 and the verdict is PARTIAL (exit
code 1) — refuting the unconditional claim for `N = 0`. -/
theorem C1_counterexample :
    (verify_bundle (.archive bC1.write_zip) (.ok "d".data)).meta = ⟨4, [], []⟩ ∧
    (verify_bundle (.archive bC1.write_zip) (.ok "d".data)).aal = ⟨2, [.aalEmpty], []⟩ ∧
    verdictCode (verify_bundle (.archive bC1.write_zip) (.ok "d".data)) = 1 := by
  have h := verify_bundle_builder_empty bC1 (.ok "d".data)
    (fun p hp => absurd hp (List.not_mem_nil p)) rfl (iso_now_contains_T dt0) rfl
  have hopt : verify_optional bC1.write_zip = ⟨0, [.noAnchors, .noSignature], []⟩ := by decide
  rw [h, hopt]
  refine ⟨rfl, rfl, ?_⟩
  decide

/-- One concrete `add_event` call. -/
def cexC1Call : EventCall := ⟨"user".data, "send".data, none, none, none, none, dt0⟩

theorem C1_roundtrip_pass_witness :
    verdictCode (verify_bundle (.archive (applyAtts (applyEvents
        (EvidenceBundle.make "b".data "s".data "v".data "o".data VALID_EVB_VERSION
          none none none dt0) [cexC1Call]) [("note.txt".data, "hi".data)]).write_zip)
      (.ok "d".data)) = 0 :=
  (C1_roundtrip_pass "b".data "s".data "v".data "o".data none none none dt0
    [cexC1Call] [("note.txt".data, "hi".data)] (.ok "d".data) (by decide)
    (by decide)).2.2.2.2
